import Mathlib

/-!
Verification development for the BundleMaster resolution pipeline
(`src/bundles.ts`).  The JavaScript source is shallowly embedded:
strings are `List Char`/`String`, JavaScript numbers are modelled as
exact rationals (`Rat`), regular-expression matching is embedded by a
small backtracking engine over single-character classes (the exact
shape of every pattern in the source), network I/O is an oracle
`String → FetchOutcome`, and the cooperative concurrency of the
limiter is a small-step state machine over its `active` counter and
queue.
-/

set_option maxRecDepth 10000

namespace BM

/-- Whitespace as trimmed by JavaScript `String.prototype.trim` (the
common code points; exotic Unicode spaces are not needed by any input
in this development). -/
def isJsWs (c : Char) : Bool :=
  c == ' ' || c == '\t' || c == '\n' || c == '\r' || c == '\x0b' || c == '\x0c' || c == ' '

/-- Drop leading JS whitespace. -/
def trimLeftJs : List Char → List Char
  | [] => []
  | c :: rest => if isJsWs c then trimLeftJs rest else c :: rest

/-- Embedding of JavaScript `s.trim()` on character lists. -/
def jsTrimL (s : List Char) : List Char :=
  trimLeftJs ((trimLeftJs s.reverse).reverse)

/-- Embedding of JavaScript `s.trim()` on `String`. -/
def jsTrim (s : String) : String := ⟨jsTrimL s.data⟩

/-- Length of the maximal prefix satisfying `p`. -/
def countWhile (p : Char → Bool) : List Char → Nat
  | [] => 0
  | c :: rest => if p c then countWhile p rest + 1 else 0

/-- Lower-casing used for the `i` regex flag and `toLowerCase()` on the
ASCII range. -/
def lowerL (s : List Char) : List Char := s.map Char.toLower

/-- Substring containment, embedding JavaScript `String.prototype.includes`. -/
def containsSub (pat : List Char) : List Char → Bool
  | [] => pat.isPrefixOf []
  | c :: rest => pat.isPrefixOf (c :: rest) || containsSub pat rest

/-- First index of `pat` in `s`, embedding `String.prototype.indexOf`
(`none` for `-1`). -/
def indexOfSub (pat : List Char) : List Char → Option Nat
  | [] => if pat.isEmpty then some 0 else none
  | c :: rest =>
    if pat.isPrefixOf (c :: rest) then some 0
    else (indexOfSub pat rest).map (· + 1)

/-! ### Regex engine

Every regular expression in the source is a concatenation of literals,
repetitions of single-character classes (greedy `*`/`+` or lazy `*?`),
one optional character (`s?`), one alternation of literals, one word
boundary `\b` placed after a word character, and one multiline `$`.
The engine below implements exactly this fragment with JavaScript's
leftmost-match, greedy/lazy backtracking semantics. -/

/-- Regex abstract syntax for the fragment used by the source. -/
inductive RE where
  | eps : RE
  | lit : List Char → Bool → RE
  | cls : (Char → Bool) → Nat → Bool → RE
  | copt : (Char → Bool) → RE
  | seq : RE → RE → RE
  | alt : RE → RE → RE
  | grp : Nat → RE → RE
  | wb : RE
  | eol : RE

/-- Capture environment: group index paired with captured characters. -/
abbrev Caps := List (Nat × List Char)

/-- Match a literal (optionally case-insensitively) as a prefix,
returning the rest. -/
def litMatch (ci : Bool) : List Char → List Char → Option (List Char)
  | [], s => some s
  | _ :: _, [] => none
  | c :: cs, d :: ds =>
    if (if ci then c.toLower == d.toLower else c == d) then litMatch ci cs ds else none

/-- JavaScript `\w` character class. -/
def isWordChar (c : Char) : Bool := c.isAlphanum || c == '_'

/-- JavaScript line terminators. -/
def isLineTerm (c : Char) : Bool :=
  c == '\n' || c == '\r' || c == ' ' || c == ' '

/-- Backtracking matcher in continuation-passing style.  Greedy
repetitions try the longest count first, lazy ones the shortest, and
alternation prefers its left branch — the JS backtracking order. -/
def reM {α : Type} : RE → List Char → Caps → (List Char → Caps → Option α) → Option α
  | .eps, s, caps, k => k s caps
  | .lit cs ci, s, caps, k =>
    match litMatch ci cs s with
    | some rest => k rest caps
    | none => none
  | .copt p, s, caps, k =>
    match s with
    | c :: rest =>
      if p c then
        match k rest caps with
        | some r => some r
        | none => k s caps
      else k s caps
    | [] => k s caps
  | .cls p mn greedy, s, caps, k =>
    let mx := countWhile p s
    if mn > mx then none
    else
      let counts := List.range' mn (mx - mn + 1)
      let counts := if greedy then counts.reverse else counts
      counts.findSome? fun n => k (s.drop n) caps
  | .seq a b, s, caps, k => reM a s caps fun s2 c2 => reM b s2 c2 k
  | .alt a b, s, caps, k =>
    match reM a s caps k with
    | some r => some r
    | none => reM b s caps k
  | .grp i r, s, caps, k =>
    reM r s caps fun s2 c2 => k s2 ((i, s.take (s.length - s2.length)) :: c2)
  | .wb, s, caps, k =>
    match s with
    | [] => k s caps
    | c :: _ => if isWordChar c then none else k s caps
  | .eol, s, caps, k =>
    match s with
    | [] => k s caps
    | c :: _ => if isLineTerm c then k s caps else none

/-- Look up a capture group (empty when the group is absent). -/
def capGet (caps : Caps) (i : Nat) : List Char :=
  match caps.find? (fun p => p.1 == i) with
  | some p => p.2
  | none => []

/-- Concatenate a list of regex elements. -/
def cat (l : List RE) : RE := l.foldr RE.seq RE.eps

/-- Find the leftmost match at or after the current position, returning
the start offset, the rest of the input after the match, and the
captures — i.e. `regex.exec` without the `g` flag. -/
def reSearchCore (r : RE) (s : List Char) (start : Nat) : Option (Nat × List Char × Caps) :=
  match reM r s [] (fun rest caps => some (rest, caps)) with
  | some (rest, caps) => some (start, rest, caps)
  | none =>
    match s with
    | [] => none
    | _ :: t => reSearchCore r t (start + 1)

/-- First match of `r` anywhere in `s` (JS `string.match` with a
non-global regex), returning only the captures. -/
def reFirst (r : RE) (s : List Char) : Option Caps :=
  (reSearchCore r s 0).map (fun x => x.2.2)

/-- Successive non-overlapping matches: the `while ((m = re.exec(s)))`
loop over a global regex.  The fuel is the input length, enough because
every iteration consumes at least one character. -/
def reExecAllGo (r : RE) : Nat → List Char → List Caps
  | 0, _ => []
  | fuel + 1, s =>
    match reSearchCore r s 0 with
    | none => []
    | some (_, rest, caps) =>
      let rest2 := if rest.length == s.length then rest.drop 1 else rest
      caps :: reExecAllGo r fuel rest2

/-- All matches of a global regex over `s`. -/
def reExecAll (r : RE) (s : List Char) : List Caps :=
  reExecAllGo r (s.length + 1) s

/-! ### HTML entity decoding (`decodeHtmlEntities`) -/

/-- One global literal replacement pass (`String.prototype.replace`
with a global literal pattern): leftmost, non-overlapping, the
replacement text is not rescanned. -/
def replaceAllLit : Nat → List Char → List Char → List Char → List Char
  | 0, _, _, s => s
  | _ + 1, _, _, [] => []
  | fuel + 1, pat, rep, c :: rest =>
    if pat.isPrefixOf (c :: rest) then
      rep ++ replaceAllLit fuel pat rep ((c :: rest).drop pat.length)
    else c :: replaceAllLit fuel pat rep rest

/-- Literal global replacement with adequate fuel. -/
def replaceLit (pat rep s : List Char) : List Char :=
  replaceAllLit (s.length + 1) pat rep s

/-- Numeric value of a decimal digit string. -/
def digitsVal (ds : List Char) : Nat :=
  ds.foldl (fun a c => a * 10 + (c.toNat - 48)) 0

/-- Hexadecimal digit test. -/
def isHexDigit (c : Char) : Bool :=
  c.isDigit || ('a' ≤ c.toLower && c.toLower ≤ 'f')

/-- Numeric value of a hex digit string. -/
def hexVal (ds : List Char) : Nat :=
  ds.foldl (fun a c => a * 16 + (if c.isDigit then c.toNat - 48 else c.toLower.toNat - 87)) 0

/-- JavaScript `String.fromCharCode`: the argument is reduced modulo
2^16; a resulting lone surrogate (invalid as a Lean `Char`) collapses
to `'\x00'` — no input in this development produces one. -/
def fromCharCode (n : Nat) : Char := Char.ofNat (n % 65536)

/-- Global replacement of `&#(\d+);` by the corresponding code unit. -/
def replaceDecEntities : Nat → List Char → List Char
  | 0, s => s
  | _ + 1, [] => []
  | fuel + 1, '&' :: '#' :: t =>
    match t.takeWhile Char.isDigit, t.drop (t.takeWhile Char.isDigit).length with
    | _ :: _, ';' :: t2 =>
      fromCharCode (digitsVal (t.takeWhile Char.isDigit)) :: replaceDecEntities fuel t2
    | _, _ => '&' :: replaceDecEntities fuel ('#' :: t)
  | fuel + 1, c :: rest => c :: replaceDecEntities fuel rest

/-- Global replacement of `&#x([0-9a-fA-F]+);` by the corresponding
code unit. -/
def replaceHexEntities : Nat → List Char → List Char
  | 0, s => s
  | _ + 1, [] => []
  | fuel + 1, '&' :: '#' :: 'x' :: t =>
    match t.takeWhile isHexDigit, t.drop (t.takeWhile isHexDigit).length with
    | _ :: _, ';' :: t2 =>
      fromCharCode (hexVal (t.takeWhile isHexDigit)) :: replaceHexEntities fuel t2
    | _, _ => '&' :: replaceHexEntities fuel ('#' :: 'x' :: t)
  | fuel + 1, c :: rest => c :: replaceHexEntities fuel rest

/-- Embedding of the source's `decodeHtmlEntities`: the same eight
replacement passes in the same order. -/
def decodeHtmlEntities (s : List Char) : List Char :=
  let s := replaceLit "&quot;".data "\"".data s
  let s := replaceLit "&amp;".data "&".data s
  let s := replaceLit "&lt;".data "<".data s
  let s := replaceLit "&gt;".data ">".data s
  let s := replaceLit "&#39;".data [Char.ofNat 39] s
  let s := replaceLit "&nbsp;".data " ".data s
  let s := replaceDecEntities (s.length + 1) s
  replaceHexEntities (s.length + 1) s

/-! ### JSON values and `JSON.parse`

JavaScript numbers are embedded as exact rationals.  This is exact for
every integral value below 2^53 (all bundle and app identifiers); the
float rounding of larger or fractional literals is idealised away. -/

/-- Parsed JSON value. -/
inductive JVal where
  | jnull : JVal
  | jbool : Bool → JVal
  | jnum : Rat → JVal
  | jstr : List Char → JVal
  | jarr : List JVal → JVal
  | jobj : List (List Char × JVal) → JVal

/-- JSON insignificant whitespace. -/
def jsonSkipWs : List Char → List Char
  | [] => []
  | c :: rest =>
    if c == ' ' || c == '\t' || c == '\n' || c == '\r' then jsonSkipWs rest else c :: rest

/-- JSON string body after the opening quote: returns the decoded
characters and the rest after the closing quote.  A `\uXXXX` escape
becomes the corresponding code unit (lone surrogates collapse as in
`fromCharCode`); raw control characters are rejected as in ECMA-404. -/
def jsonStringBody : Nat → List Char → Option (List Char × List Char)
  | 0, _ => none
  | _ + 1, [] => none
  | _ + 1, '"' :: rest => some ([], rest)
  | fuel + 1, '\\' :: e :: rest =>
    match e with
    | '"' => (jsonStringBody fuel rest).map (fun p => ('"' :: p.1, p.2))
    | '\\' => (jsonStringBody fuel rest).map (fun p => ('\\' :: p.1, p.2))
    | '/' => (jsonStringBody fuel rest).map (fun p => ('/' :: p.1, p.2))
    | 'b' => (jsonStringBody fuel rest).map (fun p => ('\x08' :: p.1, p.2))
    | 'f' => (jsonStringBody fuel rest).map (fun p => ('\x0c' :: p.1, p.2))
    | 'n' => (jsonStringBody fuel rest).map (fun p => ('\n' :: p.1, p.2))
    | 'r' => (jsonStringBody fuel rest).map (fun p => ('\r' :: p.1, p.2))
    | 't' => (jsonStringBody fuel rest).map (fun p => ('\t' :: p.1, p.2))
    | 'u' =>
      match rest with
      | a :: b :: c :: d :: rest2 =>
        if isHexDigit a && isHexDigit b && isHexDigit c && isHexDigit d then
          (jsonStringBody fuel rest2).map (fun p => (fromCharCode (hexVal [a, b, c, d]) :: p.1, p.2))
        else none
      | _ => none
    | _ => none
  | fuel + 1, c :: rest =>
    if c.toNat < 32 then none
    else (jsonStringBody fuel rest).map (fun p => (c :: p.1, p.2))

/-- Value of an integer-plus-fraction digit pair as a rational. -/
def fracVal (ip : Nat) (fs : List Char) : Rat :=
  (ip : Rat) + (digitsVal fs : Rat) / ((10 : Rat) ^ fs.length)

/-- Optional exponent part shared by the JSON and `Number()` grammars:
consumes `[eE][+-]?digits` when well-formed, else consumes nothing. -/
def expPart (q : Rat) (s : List Char) : Rat × List Char :=
  match s with
  | e :: t =>
    if e == 'e' || e == 'E' then
      let (negE, t2) : Bool × List Char :=
        match t with
        | '+' :: u => (false, u)
        | '-' :: u => (true, u)
        | _ => (false, t)
      let es := t2.takeWhile Char.isDigit
      if es = [] then (q, s)
      else
        let ev := digitsVal es
        ((if negE then q / (10 : Rat) ^ ev else q * (10 : Rat) ^ ev), t2.drop es.length)
    else (q, s)
  | [] => (q, s)

/-- JSON number literal (strict ECMA-404 grammar: no leading `+`, no
leading zeros, digits required on both sides of the dot). -/
def jsonNumber (s : List Char) : Option (Rat × List Char) :=
  let (neg, s1) : Bool × List Char :=
    match s with
    | '-' :: t => (true, t)
    | _ => (false, s)
  let core : Option (Nat × List Char) :=
    match s1 with
    | '0' :: t =>
      match t with
      | c :: _ => if c.isDigit then none else some (0, t)
      | [] => some (0, t)
    | c :: _ =>
      if c.isDigit then
        let ds := s1.takeWhile Char.isDigit
        some (digitsVal ds, s1.drop ds.length)
      else none
    | [] => none
  match core with
  | none => none
  | some (ip, rest) =>
    let withFrac : Option (Rat × List Char) :=
      match rest with
      | '.' :: t =>
        let fs := t.takeWhile Char.isDigit
        if fs = [] then none
        else some (fracVal ip fs, t.drop fs.length)
      | _ => some ((ip : Rat), rest)
    match withFrac with
    | none => none
    | some (q, rest2) =>
      let (q2, rest3) := expPart q rest2
      some ((if neg then -q2 else q2), rest3)

mutual

/-- JSON value parser (recursive descent; the fuel is the input length,
sufficient because every recursive call is past at least one consumed
character). -/
def jsonVal : Nat → List Char → Option (JVal × List Char)
  | 0, _ => none
  | fuel + 1, s =>
    match jsonSkipWs s with
    | '\x7b' :: t =>
      match jsonSkipWs t with
      | '\x7d' :: t2 => some (.jobj [], t2)
      | _ => (jsonObjFields fuel t).map (fun p => (.jobj p.1, p.2))
    | '[' :: t =>
      match jsonSkipWs t with
      | ']' :: t2 => some (.jarr [], t2)
      | _ => (jsonArrElems fuel t).map (fun p => (.jarr p.1, p.2))
    | '"' :: t => (jsonStringBody (t.length + 1) t).map (fun p => (.jstr p.1, p.2))
    | 't' :: t =>
      match litMatch false "rue".data t with
      | some rest => some (.jbool true, rest)
      | none => none
    | 'f' :: t =>
      match litMatch false "alse".data t with
      | some rest => some (.jbool false, rest)
      | none => none
    | 'n' :: t =>
      match litMatch false "ull".data t with
      | some rest => some (.jnull, rest)
      | none => none
    | s2 => (jsonNumber s2).map (fun p => (.jnum p.1, p.2))

/-- One-or-more comma-separated array elements followed by `]`. -/
def jsonArrElems : Nat → List Char → Option (List JVal × List Char)
  | 0, _ => none
  | fuel + 1, s =>
    match jsonVal fuel s with
    | none => none
    | some (v, rest) =>
      match jsonSkipWs rest with
      | ',' :: t => (jsonArrElems fuel t).map (fun p => (v :: p.1, p.2))
      | ']' :: t => some ([v], t)
      | _ => none

/-- One-or-more comma-separated object members followed by `}`. -/
def jsonObjFields : Nat → List Char → Option (List (List Char × JVal) × List Char)
  | 0, _ => none
  | fuel + 1, s =>
    match jsonSkipWs s with
    | '"' :: t =>
      match jsonStringBody (t.length + 1) t with
      | none => none
      | some (key, rest) =>
        match jsonSkipWs rest with
        | ':' :: t2 =>
          match jsonVal fuel t2 with
          | none => none
          | some (v, rest2) =>
            match jsonSkipWs rest2 with
            | ',' :: t3 => (jsonObjFields fuel t3).map (fun p => ((key, v) :: p.1, p.2))
            | '\x7d' :: t3 => some ([(key, v)], t3)
            | _ => none
        | _ => none
    | _ => none

end

/-- Embedding of `JSON.parse`: parse one value, then require only
trailing whitespace.  The error string models the `SyntaxError` the
host would raise (its exact wording is engine-specific). -/
def jsonParse (s : List Char) : Except String JVal :=
  match jsonVal (s.length + 1) s with
  | none => .error "Unexpected token in JSON"
  | some (v, rest) =>
    if jsonSkipWs rest = [] then .ok v
    else .error "Unexpected non-whitespace character after JSON data"

/-- Property access `v?.key` on a parsed JSON value (`JSON.parse`
keeps the last of duplicate keys). -/
def jGet (v : JVal) (key : List Char) : Option JVal :=
  match v with
  | .jobj fields => (fields.reverse.find? (fun p => p.1 == key)).map (·.2)
  | _ => none

/-- SameValueZero comparison of a JSON value against a number, as used
by `Array.prototype.includes`. -/
def jvalEqNum (q : Rat) (v : JVal) : Bool :=
  match v with
  | .jnum q2 => q2 == q
  | _ => false

/-! ### The JavaScript `Number(string)` conversion -/

/-- Result of `Number(string)`: `NaN`, a signed infinity, or a finite
value (idealised as an exact rational). -/
inductive JsNum where
  | nan : JsNum
  | inf : Bool → JsNum
  | fin : Rat → JsNum
deriving Repr, DecidableEq

/-- `Number()` decimal literal: `digits [. digits] [exp]` or
`. digits [exp]` (leading zeros allowed, unlike JSON). -/
def jsDecLit (s : List Char) : Option (Rat × List Char) :=
  let ds := s.takeWhile Char.isDigit
  match ds, s.drop ds.length with
  | [], '.' :: t =>
    let fs := t.takeWhile Char.isDigit
    if fs = [] then none
    else some (expPart (fracVal 0 fs) (t.drop fs.length))
  | [], _ => none
  | _, '.' :: t =>
    let fs := t.takeWhile Char.isDigit
    some (expPart (fracVal (digitsVal ds) fs) (t.drop fs.length))
  | _, rest => some (expPart ((digitsVal ds : Rat)) rest)

/-- The double-precision overflow threshold 2^1024 (computed as a
natural-number power so that concrete evaluation stays cheap). -/
def FLOAT_OVERFLOW_BOUND : Rat := ((2 ^ 1024 : Nat) : Rat)

/-- Double-precision overflow: magnitudes at or beyond 2^1024 become an
infinity (boundary rounding half an ulp below is idealised away). -/
def jsOverflow (q : Rat) : JsNum :=
  if q ≥ FLOAT_OVERFLOW_BOUND then .inf false
  else if q ≤ -FLOAT_OVERFLOW_BOUND then .inf true
  else .fin q

/-- Radix-prefixed integer body (`0x…`, `0o…`, `0b…`). -/
def jsRadixBody (isDig : Char → Bool) (val : List Char → Nat)
    (t : List Char) : JsNum :=
  let ds := t.takeWhile isDig
  if ds.isEmpty || !(t.drop ds.length).isEmpty then .nan
  else jsOverflow ((val ds : Rat))

/-- Leading sign of the `Number()` grammar (applies only to decimal
literals and `Infinity`). -/
def jsSignSplit (s : List Char) : Option (Bool × List Char) :=
  match s with
  | '+' :: t => some (false, t)
  | '-' :: t => some (true, t)
  | _ => none

/-- The whole remaining input as an unsigned decimal literal, else
`NaN`. -/
def jsDecTail (s : List Char) : JsNum :=
  match jsDecLit s with
  | some (q, []) => jsOverflow q
  | _ => .nan

/-- Unsigned numeric body: `Infinity`, a radix-prefixed integer, or a
decimal literal. -/
def jsUnsignedTail (s : List Char) : JsNum :=
  if s = "Infinity".data then .inf false
  else
    match s with
    | '0' :: x :: t =>
      if x == 'x' || x == 'X' then jsRadixBody isHexDigit hexVal t
      else if x == 'o' || x == 'O' then
        jsRadixBody (fun c => '0' ≤ c && c ≤ '7')
          (fun ds => ds.foldl (fun a c => a * 8 + (c.toNat - 48)) 0) t
      else if x == 'b' || x == 'B' then
        jsRadixBody (fun c => c == '0' || c == '1')
          (fun ds => ds.foldl (fun a c => a * 2 + (c.toNat - 48)) 0) t
      else jsDecTail ('0' :: x :: t)
    | s2 => jsDecTail s2

/-- `Number()` on an already-trimmed character list. -/
def jsNumberL (s : List Char) : JsNum :=
  if s = [] then .fin 0
  else
    match jsSignSplit s with
    | some (neg, t) =>
      if t = "Infinity".data then .inf neg
      else
        match jsDecLit t with
        | some (q, []) => jsOverflow (if neg then -q else q)
        | _ => .nan
    | none => jsUnsignedTail s

/-- Embedding of the JavaScript `Number(string)` conversion: trim, empty
means `0`, an optional sign applies only to decimal literals and
`Infinity`, radix prefixes take no sign, anything else is `NaN`. -/
def jsNumber (str : String) : JsNum :=
  jsNumberL (jsTrimL str.data)

/-- The finite value of `Number(str)` when `Number.isFinite` holds. -/
def jsNumberFinite (str : String) : Option Rat :=
  match jsNumber str with
  | .fin q => some q
  | _ => none

/-! ### `String(value)` on parsed JSON values -/

/-- JS rendering of a number: integers print their digits; other values
print the shortest exact decimal expansion (exact for every value this
pipeline produces; JavaScript's shortest-round-trip rule for
non-decimal rationals is out of scope and yields a placeholder). -/
def jsNumToString (q : Rat) : List Char :=
  if q.den == 1 then (toString q.num).data
  else
    match (List.range 31).find? (fun k => (q * (10 : Rat) ^ k).den == 1) with
    | some k =>
      let n := (q * (10 : Rat) ^ k).num
      let digs := toString n.natAbs
      let digs := (List.replicate (k + 1 - digs.length) '0') ++ digs.data
      let ip := digs.take (digs.length - k)
      let fp := digs.drop (digs.length - k)
      (if n < 0 then ['-'] else []) ++ ip ++ '.' :: fp
    | none => "?".data

mutual

/-- Embedding of `String(value)` for parsed JSON values.  The fuel is
the length of the originating text, an upper bound on nesting depth. -/
def jsToString : Nat → JVal → List Char
  | _, .jnull => "null".data
  | _, .jbool true => "true".data
  | _, .jbool false => "false".data
  | _, .jnum q => jsNumToString q
  | _, .jstr s => s
  | 0, .jarr _ => []
  | fuel + 1, .jarr l => jsToStringList fuel l
  | _, .jobj _ => "[object Object]".data

/-- `Array.prototype.join(",")`: `null` elements render empty. -/
def jsToStringList : Nat → List JVal → List Char
  | 0, _ => []
  | _ + 1, [] => []
  | fuel + 1, v :: rest =>
    (match v with
     | .jnull => []
     | v2 => jsToString fuel v2)
    ++ (match rest with
        | [] => []
        | _ => ',' :: jsToStringList fuel rest)

end

/-! ### Domain records (`BundleGameInfo`, `BundleInfo`) -/

/-- One child item of a bundle (`BundleGameInfo` in the source);
numeric fields are idealised JS numbers. -/
structure BundleGameInfo where
  appId : String
  name : Option String
  imageUrl : Option String
  reviewCount : Option Rat
  positiveReviewPercent : Option Rat
  priceUsd : Option Rat
deriving Repr, DecidableEq

/-- A bundle record (`BundleInfo` in the source). -/
structure BundleInfo where
  id : String
  name : String
  games : List BundleGameInfo
deriving Repr, DecidableEq

/-- JavaScript `Error` value; in this pipeline a cause chain is at most
one level deep, so the cause is embedded as a (name, message) pair. -/
structure JsError where
  name : String
  message : String
  cause : Option (String × String)
deriving Repr, DecidableEq

/-- Embedding of the source's `describeError` on the errors this
pipeline creates (always `Error` instances). -/
def describeError (e : JsError) : String :=
  e.name ++ ": " ++ e.message ++
    (match e.cause with
     | some (cn, cm) => "; cause: " ++ cn ++ ": " ++ cm
     | none => "")

/-! ### The source's regular expressions -/

/-- Class `[\s\S]` (any character). -/
def anyChar : Char → Bool := fun _ => true

/-- Class `[^>]`. -/
def notGt : Char → Bool := (· != '>')

/-- Class `[^"]`. -/
def notQuote : Char → Bool := (· != '"')

/-- Class `[^<]`. -/
def notLt : Char → Bool := (· != '<')

/-- JavaScript `\s`. -/
def jsRegexWs (c : Char) : Bool := isJsWs c || isLineTerm c

/-- Negation of a line terminator: the JS `.` without the `s` flag. -/
def notLineTerm (c : Char) : Bool := !isLineTerm c

/-- `/<span class="title">([^<]+)<\/span>/i` -/
def TITLE_REGEX : RE :=
  cat [.lit "<span class=\"title\">".data true, .grp 1 (.cls notLt 1 true),
    .lit "</span>".data true]

/-- `/<a[^>]*data-ds-bundleid="(\d+)"[^>]*data-ds-bundle-data="([^"]*)"[^>]*>([\s\S]*?)<\/a>/gi` -/
def BUNDLE_ANCHOR_REGEX : RE :=
  cat [.lit "<a".data true, .cls notGt 0 true,
    .lit "data-ds-bundleid=\"".data true, .grp 1 (.cls Char.isDigit 1 true),
    .lit "\"".data false,
    .cls notGt 0 true, .lit "data-ds-bundle-data=\"".data true,
    .grp 2 (.cls notQuote 0 true), .lit "\"".data false,
    .cls notGt 0 true, .lit ">".data false,
    .grp 3 (.cls anyChar 0 false), .lit "</a>".data true]

/-- `/https?:\/\/store\.steampowered\.com\/bundle\/(\d+)/gi` -/
def BUNDLE_LINK_REGEX : RE :=
  cat [.lit "http".data true, .copt (fun c => c.toLower == 's'),
    .lit "://store.steampowered.com/bundle/".data true,
    .grp 1 (.cls Char.isDigit 1 true)]

/-- `/data-bundle_list="([^"]+)"/i` -/
def BUNDLE_LIST_ATTR_REGEX : RE :=
  cat [.lit "data-bundle_list=\"".data true, .grp 1 (.cls notQuote 1 true),
    .lit "\"".data false]

/-- `/<a\b([^>]*?)data-ds-appid="(\d+)"([^>]*)>([\s\S]*?)<\/a>/gi`; the
`\b` sits after the word character `a`, so it demands a non-word (or
absent) next character. -/
def BUNDLE_ITEM_REGEX : RE :=
  cat [.lit "<a".data true, .wb, .grp 1 (.cls notGt 0 false),
    .lit "data-ds-appid=\"".data true, .grp 2 (.cls Char.isDigit 1 true),
    .lit "\"".data false,
    .grp 3 (.cls notGt 0 true), .lit ">".data false,
    .grp 4 (.cls anyChar 0 false), .lit "</a>".data true]

/-- `/class="[^\"]*tab_item_name[^\"]*"[^>]*>([^<]+)/i` -/
def GAME_NAME_REGEX : RE :=
  cat [.lit "class=\"".data true, .cls notQuote 0 true,
    .lit "tab_item_name".data true, .cls notQuote 0 true,
    .lit "\"".data false, .cls notGt 0 true, .lit ">".data false,
    .grp 1 (.cls notLt 1 true)]

/-- `/<img[^>]*class="[^"]*(?:tab_item_cap_img|bundle_capsule_image)[^"]*"[^>]*src="([^"]+)"/i` -/
def IMAGE_REGEX : RE :=
  cat [.lit "<img".data true, .cls notGt 0 true, .lit "class=\"".data true,
    .cls notQuote 0 true,
    .alt (.lit "tab_item_cap_img".data true) (.lit "bundle_capsule_image".data true),
    .cls notQuote 0 true, .lit "\"".data false, .cls notGt 0 true,
    .lit "src=\"".data true, .grp 1 (.cls notQuote 1 true), .lit "\"".data false]

/-- Dynamic attribute regex `` new RegExp(`${name}\\s*=\\s*"([^"]+)"`, 'i') ``. -/
def ATTR_REGEX (name : String) : RE :=
  cat [.lit name.data true, .cls jsRegexWs 0 true, .lit "=".data false,
    .cls jsRegexWs 0 true, .lit "\"".data false,
    .grp 1 (.cls notQuote 1 true), .lit "\"".data false]

/-- `/<h2[^>]*class="pageheader"[^>]*>([^<]+)<\/h2>/i` -/
def PAGEHEADER_REGEX : RE :=
  cat [.lit "<h2".data true, .cls notGt 0 true,
    .lit "class=\"pageheader\"".data true, .cls notGt 0 true,
    .lit ">".data false, .grp 1 (.cls notLt 1 true), .lit "</h2>".data true]

/-- `/<title[^>]*>([^<]+)<\/title>/i` -/
def TITLE_TAG_REGEX : RE :=
  cat [.lit "<title".data true, .cls notGt 0 true, .lit ">".data false,
    .grp 1 (.cls notLt 1 true), .lit "</title>".data true]

/-- Body of `/^\s*Title:\s*(.+)$/im` (the `^` anchor is handled by
trying only line-start positions). -/
def TITLE_LINE_REGEX : RE :=
  cat [.cls jsRegexWs 0 true, .lit "Title:".data true, .cls jsRegexWs 0 true,
    .grp 1 (.cls notLineTerm 1 true), .eol]

/-- `/Markdown Content:\s*([\s\S]+)/i` -/
def MARKDOWN_REGEX : RE :=
  cat [.lit "Markdown Content:".data true, .cls jsRegexWs 0 true,
    .grp 1 (.cls anyChar 1 true)]

/-- `/https?:\/\/store\.steampowered\.com\/app\/(\d+)\//i` -/
def APP_LINK_REGEX : RE :=
  cat [.lit "http".data true, .copt (fun c => c.toLower == 's'),
    .lit "://store.steampowered.com/app/".data true,
    .grp 1 (.cls Char.isDigit 1 true), .lit "/".data false]

/-- Suffixes at line-start positions strictly after position 0, in
increasing position order: where multiline `^` may anchor. -/
def lineStartTails : List Char → List (List Char)
  | [] => []
  | c :: rest =>
    if isLineTerm c then rest :: lineStartTails rest else lineStartTails rest

/-- First match of a `^`-anchored multiline regex: try position 0 and
every position following a line terminator, in order. -/
def searchMultiline (r : RE) (s : List Char) : Option Caps :=
  (s :: lineStartTails s).findSome? fun suf =>
    reM r suf [] fun _ caps => some caps

/-- `String.prototype.split(/\r?\n/)` (a lone `\r` is not a separator). -/
def splitLines : List Char → List (List Char)
  | [] => [[]]
  | '\r' :: '\n' :: t => [] :: splitLines t
  | '\n' :: t => [] :: splitLines t
  | c :: t =>
    match splitLines t with
    | line :: rest => (c :: line) :: rest
    | [] => [[c]]

/-- Pack characters back into a `String`. -/
def strOf (l : List Char) : String := ⟨l⟩

/-! ### Entity extractor functions -/

/-- Embedding of `extractGameName`. -/
def extractGameName (innerHtml : List Char) : Option String :=
  match reFirst GAME_NAME_REGEX innerHtml with
  | some caps =>
    let value := jsTrimL (decodeHtmlEntities (capGet caps 1))
    if value = [] then none else some (strOf value)
  | none => none

/-- Embedding of `extractImageUrl`. -/
def extractImageUrl (innerHtml : List Char) : Option String :=
  match reFirst IMAGE_REGEX innerHtml with
  | some caps =>
    let value := jsTrimL (decodeHtmlEntities (capGet caps 1))
    if value = [] then none else some (strOf value)
  | none => none

/-- Embedding of `parseInteger`: strip everything but digits and `-`,
then `Number(...)` with a finiteness guard. -/
def parseInteger (rawValue : String) : Option Rat :=
  let sanitized := rawValue.data.filter (fun c => c.isDigit || c == '-')
  if sanitized = [] then none
  else
    match jsNumber (strOf sanitized) with
    | .fin q => some q
    | _ => none

/-- JavaScript `Math.round`: round half toward positive infinity,
`⌊q + 1/2⌋` (stated with the computable `Rat.floor`). -/
def jsRound (q : Rat) : Int := (q + 1 / 2).floor

/-- Embedding of `parsePrice`: a decimal separator in the trimmed raw
value means major units (round to 2 decimals); otherwise the digits are
minor units, divided by 100 and rounded to 2 decimals. -/
def parsePrice (rawValue : String) : Option Rat :=
  let trimmed := jsTrimL rawValue.data
  if trimmed = [] then none
  else
    let hasDecimalSeparator := trimmed.contains '.'
    let sanitized := trimmed.filter (fun c => c.isDigit || c == '.')
    if sanitized = [] then none
    else
      match jsNumber (strOf sanitized) with
      | .fin q =>
        if hasDecimalSeparator then some (((jsRound (q * 100) : Int) : Rat) / 100)
        else some (((jsRound (q / 100 * 100) : Int) : Rat) / 100)
      | _ => none

/-- Embedding of `parseIntegerAttribute`: first alias whose attribute
is present and parses wins. -/
def parseIntegerAttribute (source : List Char) : List String → Option Rat
  | [] => none
  | n :: rest =>
    match reFirst (ATTR_REGEX n) source with
    | some caps =>
      match parseInteger (strOf (capGet caps 1)) with
      | some v => some v
      | none => parseIntegerAttribute source rest
    | none => parseIntegerAttribute source rest

/-- Embedding of `parsePriceAttribute`. -/
def parsePriceAttribute (source : List Char) : List String → Option Rat
  | [] => none
  | n :: rest =>
    match reFirst (ATTR_REGEX n) source with
    | some caps =>
      match parsePrice (strOf (capGet caps 1)) with
      | some v => some v
      | none => parsePriceAttribute source rest
    | none => parsePriceAttribute source rest

/-- The record built from one `BUNDLE_ITEM_REGEX` match. -/
def gameFromMatch (caps : Caps) : BundleGameInfo :=
  let attributes := capGet caps 1 ++ ' ' :: capGet caps 3
  let innerHtml := capGet caps 4
  { appId := strOf (capGet caps 2)
    name := extractGameName innerHtml
    imageUrl := extractImageUrl innerHtml
    reviewCount := parseIntegerAttribute attributes
      ["data-ds-review-count", "data-ds-reviewcount", "data-ds-review_count"]
    positiveReviewPercent := parseIntegerAttribute attributes
      ["data-ds-review-percentage", "data-ds-reviewpercent",
       "data-ds-review_percent", "data-ds-reviewscore"]
    priceUsd := parsePriceAttribute attributes
      ["data-ds-price-final", "data-ds-price", "data-ds-price-final-usd"] }

/-- The `while (match = BUNDLE_ITEM_REGEX.exec(html))` loop body. -/
def gamesLoop : List Caps → List BundleGameInfo
  | [] => []
  | m :: rest =>
    if capGet m 2 = [] then gamesLoop rest
    else gameFromMatch m :: gamesLoop rest

/-- Skip predicate of `extractNameFromSanitizedLines`. -/
def sanitizedNameSkip (candidate : List Char) : Bool :=
  let normalized := lowerL candidate
  "[".data.isPrefixOf candidate || "!".data.isPrefixOf candidate ||
  "-".data.isPrefixOf candidate || "+".data.isPrefixOf candidate ||
  "·".data.isPrefixOf candidate || "•".data.isPrefixOf candidate ||
  "*".data.isPrefixOf candidate ||
  (match candidate with
   | c :: _ => c == '$' || c == '€' || c == '£' || c == '¥' || c == '₽'
   | [] => false) ||
  (match candidate with
   | '-' :: d :: _ => d.isDigit
   | c :: _ => c.isDigit
   | [] => false) ||
  containsSub "bundle discount".data normalized ||
  containsSub "bundle price".data normalized ||
  containsSub "add to cart".data normalized ||
  containsSub "buy this bundle".data normalized ||
  containsSub "view".data normalized ||
  containsSub "includes".data normalized

/-- Scan for the nearest acceptable display-name line. -/
def nameFromLines : List (List Char) → Option String
  | [] => none
  | candidate :: rest =>
    if candidate = [] then nameFromLines rest
    else if sanitizedNameSkip candidate then nameFromLines rest
    else some (strOf candidate)

/-- Embedding of `extractNameFromSanitizedLines`. -/
def extractNameFromSanitizedLines (lines : List (List Char)) (startIndex : Nat) : Option String :=
  nameFromLines (lines.drop startIndex)

/-- Loop of `extractBundleGamesFromSanitizedMarkdown`: scan bounded
lines for item links, deduplicating by id via the `seen` set. -/
def mdGamesGo (relevant : List (List Char)) (seen : List String) (idx : Nat) :
    List (List Char) → List BundleGameInfo
  | [] => []
  | line :: rest =>
    match reFirst APP_LINK_REGEX line with
    | none => mdGamesGo relevant seen (idx + 1) rest
    | some caps =>
      let appId := strOf (capGet caps 1)
      if appId = "" || seen.contains appId then mdGamesGo relevant seen (idx + 1) rest
      else
        { appId := appId
          name := extractNameFromSanitizedLines relevant (idx + 1)
          imageUrl := some ("https://steamcdn-a.akamaihd.net/steam/apps/" ++ appId ++ "/capsule_184x69.jpg")
          reviewCount := none
          positiveReviewPercent := none
          priceUsd := none } :: mdGamesGo relevant (appId :: seen) (idx + 1) rest

/-- Embedding of `extractBundleGamesFromSanitizedMarkdown`. -/
def extractBundleGamesFromSanitizedMarkdown (html : List Char) : List BundleGameInfo :=
  let source :=
    match indexOfSub "Markdown Content:".data html with
    | some idx => html.drop (idx + "Markdown Content:".length)
    | none => html
  let lines := (splitLines source).map fun l => jsTrimL (decodeHtmlEntities l)
  if lines.isEmpty then []
  else
    let startIndex := lines.findIdx? fun line =>
      containsSub "items included in this bundle".data (lowerL line)
    let startIndexJs : Int :=
      match startIndex with
      | some i => (i : Int)
      | none => -1
    let endIndex := (lines.enum.find? fun p =>
      decide ((p.1 : Int) > startIndexJs) &&
        "more like this".data.isPrefixOf (lowerL p.2)).map (·.1)
    let relevantLines :=
      match startIndex with
      | some si =>
        match endIndex with
        | some ei =>
          if (si : Int) < (ei : Int) then (lines.drop (si + 1)).take (ei - (si + 1))
          else lines.drop (si + 1)
        | none => lines.drop (si + 1)
      | none => lines
    mdGamesGo relevantLines [] 0 relevantLines

/-- The app-link ids matched on a list of markdown lines, in line
order (one candidate id per line that has a store app link). -/
def mdLineIds (ls : List (List Char)) : List String :=
  ls.filterMap fun line =>
    (reFirst APP_LINK_REGEX line).map fun caps => strOf (capGet caps 1)

/-- First-seen deduplication of an id stream with the markdown
strategy's guard: blank ids and ids already seen are dropped, the
first occurrence of every other id survives in stream order. -/
def mdDedupIds (seen : List String) : List String → List String
  | [] => []
  | i :: rest =>
    if i = "" || seen.contains i then mdDedupIds seen rest
    else i :: mdDedupIds (i :: seen) rest

/-- Embedding of `extractBundleGamesFromHtml`: structured anchors first,
markdown fallback only when the structured pass yields nothing. -/
def extractBundleGamesFromHtml (html : List Char) : List BundleGameInfo :=
  let games := gamesLoop (reExecAll BUNDLE_ITEM_REGEX html)
  if games.length > 0 then games
  else extractBundleGamesFromSanitizedMarkdown html

/-- Name extraction shared by the first three `extractBundleTitle`
patterns: decode, trim, and accept only a non-empty value. -/
def titleFromCaps (oc : Option Caps) : Option String :=
  match oc with
  | some caps =>
    let value := jsTrimL (decodeHtmlEntities (capGet caps 1))
    if value = [] then none else some (strOf value)
  | none => none

/-- Embedding of `extractBundleTitle`: the pageheader heading, then the
document title, then a `Title:` line, then the first non-blank line of
a `Markdown Content:` section. -/
def extractBundleTitle (body : List Char) : Option String :=
  (titleFromCaps (reFirst PAGEHEADER_REGEX body)).orElse fun _ =>
  (titleFromCaps (reFirst TITLE_TAG_REGEX body)).orElse fun _ =>
  (titleFromCaps (searchMultiline TITLE_LINE_REGEX body)).orElse fun _ =>
  match reFirst MARKDOWN_REGEX body with
  | some caps =>
    let lines := (splitLines (capGet caps 1)).map fun l => jsTrimL (decodeHtmlEntities l)
    (lines.find? fun l => !l.isEmpty).map strOf
  | none => none

/-- The record built from one `BUNDLE_ANCHOR_REGEX` match, or `none`
when the anchor is skipped (unparsable payload, subject id not in the
inclusion set, or no non-empty decoded title). -/
def anchorRecord (numericId : Rat) (caps : Caps) : Option BundleInfo :=
  let decodedData := decodeHtmlEntities (capGet caps 2)
  match jsonParse decodedData with
  | .error _ => none
  | .ok data =>
    let includesApp :=
      match jGet data "m_rgItems".data with
      | some (.jarr items) =>
        items.any fun item =>
          match jGet item "m_rgIncludedAppIDs".data with
          | some (.jarr apps) => apps.any (jvalEqNum numericId)
          | _ => false
      | _ => false
    if !includesApp then none
    else
      match reFirst TITLE_REGEX (capGet caps 3) with
      | none => none
      | some tcaps =>
        let name := jsTrimL (decodeHtmlEntities (capGet tcaps 1))
        if name = [] then none
        else some { id := strOf (capGet caps 1), name := strOf name, games := [] }

/-- The `while (match = BUNDLE_ANCHOR_REGEX.exec(html))` loop body. -/
def bundlesLoop (numericId : Rat) : List Caps → List BundleInfo
  | [] => []
  | m :: rest =>
    match anchorRecord numericId m with
    | some b => b :: bundlesLoop numericId rest
    | none => bundlesLoop numericId rest

/-- The `seen`-set filter of `deduplicateBundles`. -/
def dedupById (seen : List String) : List BundleInfo → List BundleInfo
  | [] => []
  | b :: rest =>
    if seen.contains b.id then dedupById seen rest
    else b :: dedupById (b.id :: seen) rest

/-- Embedding of `deduplicateBundles`. -/
def deduplicateBundles (bundles : List BundleInfo) : List BundleInfo :=
  dedupById [] bundles

/-- The `seen`-set filter of `deduplicateGames`. -/
def dedupGamesGo (seen : List String) : List BundleGameInfo → List BundleGameInfo
  | [] => []
  | g :: rest =>
    if seen.contains g.appId then dedupGamesGo seen rest
    else g :: dedupGamesGo (g.appId :: seen) rest

/-- Embedding of `deduplicateGames`. -/
def deduplicateGames (games : List BundleGameInfo) : List BundleGameInfo :=
  dedupGamesGo [] games

/-- Embedding of `extractBundlesFromHtml`: a non-finite `Number(appId)`
yields the empty list; otherwise every bundle anchor is filtered by
payload membership and title, then deduplicated by bundle id. -/
def extractBundlesFromHtml (html : String) (appId : String) : List BundleInfo :=
  match jsNumber appId with
  | .fin numericId =>
    deduplicateBundles (bundlesLoop numericId (reExecAll BUNDLE_ANCHOR_REGEX html.data))
  | _ => []

/-- JS `Set` insertion (first insertion fixes the position). -/
def jsSetInsert (seen : List String) (x : String) : List String :=
  if seen.contains x then seen else seen ++ [x]

/-- Embedding of `extractBundleIdsFromHtml`: the embedded
`data-bundle_list` JSON (fatal when present but unparsable, with the
parse failure as the cause) unioned with the bundle-link scan, in
first-seen order. -/
def extractBundleIdsFromHtml (html : String) : Except JsError (List String) :=
  let h := html.data
  let step1 : Except JsError (List String) :=
    match reFirst BUNDLE_LIST_ATTR_REGEX h with
    | some caps =>
      let payload := capGet caps 1
      match jsonParse payload with
      | .error msg =>
        .error ⟨"Error", "Failed to parse bundle list from bundle list page",
          some ("SyntaxError", msg)⟩
      | .ok (.jarr vs) =>
        .ok (vs.foldl (fun seen v =>
          let id := jsTrimL (jsToString (payload.length + 1) v)
          if id = [] then seen else jsSetInsert seen (strOf id)) [])
      | .ok _ => .ok []
    | none => .ok []
  match step1 with
  | .error e => .error e
  | .ok seen1 =>
    .ok ((reExecAll BUNDLE_LINK_REGEX h).foldl (fun seen caps =>
      let id := jsTrimL (capGet caps 1)
      if id = [] then seen else jsSetInsert seen (strOf id)) seen1)

/-! ### Resilient fetcher (`fetchTextFromSteam`)

Network I/O is an oracle `net : String → FetchOutcome` assigning each
URL its response.  The loop returns, besides the result, the trace of
URLs actually fetched, in fetch order. -/

/-- Outcome the host `fetch` produces for one URL. -/
inductive FetchOutcome where
  | success (body : String)
  | httpError (status : Nat) (statusText : String) (body : String)
  | networkError (name message : String)

/-- Ambient runtime state read by the source at module scope: whether a
browser context is detected, and the raw proxy-override value. -/
structure RuntimeConfig where
  isBrowser : Bool
  proxyOverride : Option String

/-- Byte sequence of a character under UTF-8. -/
def utf8Bytes (c : Char) : List Nat :=
  let n := c.toNat
  if n < 128 then [n]
  else if n < 2048 then [192 + n / 64, 128 + n % 64]
  else if n < 65536 then [224 + n / 4096, 128 + (n / 64) % 64, 128 + n % 64]
  else [240 + n / 262144, 128 + (n / 4096) % 64, 128 + (n / 64) % 64, 128 + n % 64]

/-- Upper-case hex digit. -/
def hexDigitUpper (n : Nat) : Char :=
  if n < 10 then Char.ofNat (48 + n) else Char.ofNat (55 + n)

/-- Characters `encodeURIComponent` leaves unescaped. -/
def isUriUnreserved (c : Char) : Bool :=
  c.isAlphanum || c == '-' || c == '_' || c == '.' || c == '!' || c == '~' ||
  c == '*' || c == '(' || c == ')' || c.toNat == 39

/-- Embedding of `encodeURIComponent`. -/
def encodeURIComponent (s : String) : String :=
  strOf (s.data.foldr (fun c acc =>
    (if isUriUnreserved c then [c]
     else (utf8Bytes c).foldr (fun b acc2 =>
       '%' :: hexDigitUpper (b / 16) :: hexDigitUpper (b % 16) :: acc2) []) ++ acc) [])

/-- Embedding of `normalizeProxy`: trim and ensure a trailing slash. -/
def normalizeProxy (value : String) : String :=
  let trimmed := jsTrimL value.data
  if trimmed = [] then strOf trimmed
  else if trimmed.getLast? == some '/' then strOf trimmed
  else strOf (trimmed ++ ['/'])

/-- The fixed fallback proxy list of the source. -/
def FALLBACK_PROXIES : List String :=
  ["https://r.jina.ai/", "https://cors.isomorphic-git.org/"].map normalizeProxy

/-- The resolved runtime proxy override: present only when the raw
configured value is non-blank, and then normalized. -/
def runtimeProxyOf (cfg : RuntimeConfig) : Option String :=
  match cfg.proxyOverride with
  | some raw => if jsTrim raw ≠ "" then some (normalizeProxy raw) else none
  | none => none

/-- First-seen duplicate filter over candidate URLs. -/
def filterSeen (seen : List String) : List String → List String
  | [] => []
  | x :: rest =>
    if seen.contains x then filterSeen seen rest
    else x :: filterSeen (x :: seen) rest

/-- Embedding of `getProxyUrls`: outside a browser no proxies apply;
otherwise the optional override precedes the fixed fallbacks, each
prefixed to the URL, duplicates removed preserving order. -/
def getProxyUrls (cfg : RuntimeConfig) (url : String) : List String :=
  if !cfg.isBrowser then []
  else
    let proxies :=
      match runtimeProxyOf cfg with
      | some rp => rp :: FALLBACK_PROXIES
      | none => FALLBACK_PROXIES
    filterSeen [] (proxies.map (· ++ url))

/-- One recorded failed attempt. -/
structure AttemptRecord where
  url : String
  error : JsError
deriving Repr, DecidableEq

/-- `statusText || 'Unknown status'`. -/
def statusTextOr (statusText : String) : String :=
  if statusText = "" then "Unknown status" else statusText

/-- The `Error` recorded for a non-success HTTP status. -/
def httpStatusError (status : Nat) (statusText : String) : JsError :=
  ⟨"Error", "HTTP " ++ toString status ++ " " ++ statusTextOr statusText, none⟩

/-- The numbered diagnostic trail of the aggregated failure message. -/
def formatAttempts (attempts : List AttemptRecord) : String :=
  String.intercalate "\n" (attempts.enum.map fun p =>
    "  " ++ toString (p.1 + 1) ++ ". " ++ p.2.url ++ " → " ++ describeError p.2.error)

/-- The error thrown when every candidate URL has failed. -/
def aggregatedError (resourceDescription : String) (attempts : List AttemptRecord) : JsError :=
  ⟨"Error",
    "Failed to retrieve " ++ resourceDescription ++ " from Steam after " ++
      toString attempts.length ++ " attempt(s):\n" ++ formatAttempts attempts,
    none⟩

/-- The candidate loop of `fetchTextFromSteam`: first success wins
immediately; failures of either kind are recorded and the loop
continues; exhaustion throws the aggregated error.  The second
component is the trace of URLs fetched. -/
def fetchLoop (net : String → FetchOutcome) (resourceDescription : String) :
    List String → List AttemptRecord → Except JsError (String × String) × List String
  | [], attempts => (.error (aggregatedError resourceDescription attempts), [])
  | u :: rest, attempts =>
    match net u with
    | .success body => (.ok (u, body), [u])
    | .httpError st stTxt _ =>
      let r := fetchLoop net resourceDescription rest (attempts ++ [⟨u, httpStatusError st stTxt⟩])
      (r.1, u :: r.2)
    | .networkError nm msg =>
      let r := fetchLoop net resourceDescription rest (attempts ++ [⟨u, ⟨nm, msg, none⟩⟩])
      (r.1, u :: r.2)

/-- Embedding of `fetchTextFromSteam`: the canonical URL followed by
its proxy-rewritten variants, attempted strictly in order. -/
def fetchTextFromSteam (cfg : RuntimeConfig) (net : String → FetchOutcome)
    (url resourceDescription : String) :
    Except JsError (String × String) × List String :=
  fetchLoop net resourceDescription (url :: getProxyUrls cfg url) []

/-! ### Resolution orchestrator (`fetchBundleNames`) -/

/-- `BUNDLE_LIST_URL` of the source. -/
def BUNDLE_LIST_URL : String := "https://store.steampowered.com/bundlelist/"

/-- `BUNDLE_PAGE_URL` of the source. -/
def BUNDLE_PAGE_URL : String := "https://store.steampowered.com/bundle/"

/-- The list-page URL for a subject id. -/
def bundleListUrlFor (appId : String) : String :=
  BUNDLE_LIST_URL ++ encodeURIComponent appId

/-- The detail-page URL for a bundle id. -/
def bundlePageUrlFor (bundleId : String) : String :=
  BUNDLE_PAGE_URL ++ encodeURIComponent bundleId ++ "?l=english&cc=us"

/-- Embedding of `fetchBundleIds`: fetch the list page and extract
candidate ids (both failure modes propagate). -/
def fetchBundleIdsM (cfg : RuntimeConfig) (net : String → FetchOutcome)
    (appId : String) : Except JsError (List String) :=
  match (fetchTextFromSteam cfg net (bundleListUrlFor appId) "listy bundli").1 with
  | .error e => .error e
  | .ok (_, body) => extractBundleIdsFromHtml body

/-- Embedding of `fetchBundleDetails`: fetch the detail page; `none`
when no title parses, otherwise the record with extracted games. -/
def fetchBundleDetails (cfg : RuntimeConfig) (net : String → FetchOutcome)
    (bundleId : String) : Except JsError (Option BundleInfo) :=
  match (fetchTextFromSteam cfg net (bundlePageUrlFor bundleId)
      ("strony bundla " ++ bundleId)).1 with
  | .error e => .error e
  | .ok (_, body) =>
    match extractBundleTitle body.data with
    | none => .ok none
    | some name => .ok (some ⟨bundleId, name, extractBundleGamesFromHtml body.data⟩)

/-- The settled value of one candidate's limiter task: the `catch`
turns a thrown detail-fetch failure into an absent record. -/
def candidateOutcome (cfg : RuntimeConfig) (net : String → FetchOutcome)
    (bundleId : String) : Option BundleInfo :=
  match fetchBundleDetails cfg net bundleId with
  | .error _ => none
  | .ok r => r

/-- Embedding of `fetchBundleMetadata`: `Promise.all` returns the
per-candidate settled values in submission order — the limiter affects
only timing, not this list. -/
def fetchBundleMetadata (cfg : RuntimeConfig) (net : String → FetchOutcome)
    (bundleIds : List String) : List (Option BundleInfo) :=
  bundleIds.map (candidateOutcome cfg net)

/-- A progress snapshot (`BundleFetchProgress` in the source). -/
structure BundleFetchProgress where
  current : Nat
  total : Nat
  message : String
deriving Repr, DecidableEq

/-- `Number.MAX_SAFE_INTEGER`. -/
def MAX_SAFE_INTEGER : Nat := 9007199254740991

/-- Last index of an id in the discovery list: `bundleOrder` is a `Map`
filled by `forEach`, so a duplicated id keeps its last index. -/
def lastIdxOf (ids : List String) (id : String) : Option Nat :=
  ((ids.enum.filter fun p => p.2 == id).getLast?).map (·.1)

/-- `bundleOrder.get(id) ?? Number.MAX_SAFE_INTEGER`. -/
def orderKey (ids : List String) (id : String) : Nat :=
  match lastIdxOf ids id with
  | some i => i
  | none => MAX_SAFE_INTEGER

/-- Per-record sanitization at aggregation time: deduplicate games by
app id and drop the queried subject's own id. -/
def sanitizeRecord (cleanId : String) (b : BundleInfo) : BundleInfo :=
  { b with games := (deduplicateGames b.games).filter fun g => g.appId != cleanId }

/-- `bundles.filter(b => Boolean(b?.name.trim()))`: keep present
records with a non-blank name. -/
def filteredRecords (results : List (Option BundleInfo)) : List BundleInfo :=
  results.filterMap fun ob =>
    match ob with
    | some b => if jsTrim b.name ≠ "" then some b else none
    | none => none

/-- The final aggregation of `fetchBundleNames`: filter, deduplicate by
bundle id, sanitize games, and stable-sort by discovery index.
`Array.prototype.sort` with the comparator `orderA - orderB` is a
stable ascending sort, and every stable sort produces the same list, so
insertion sort embeds it exactly. -/
def aggregateBundles (cleanId : String) (bundleIds : List String)
    (results : List (Option BundleInfo)) : List BundleInfo :=
  let filtered := filteredRecords results
  let unique := deduplicateBundles filtered
  let sanitized := unique.map (sanitizeRecord cleanId)
  List.insertionSort (fun a b => orderKey bundleIds a.id ≤ orderKey bundleIds b.id) sanitized

/-- The progress snapshots a run with `K` discovered candidates emits,
in emission order.  Each task's `finally` increments the shared
completion counter and publishes `1 + completedBundles`, so the
sequence does not depend on the order in which tasks complete. -/
def progressTrace (K : Nat) : List BundleFetchProgress :=
  if K = 0 then
    [⟨0, 1, "Pobieranie listy bundli…"⟩, ⟨1, 1, "Zakończono – brak bundli."⟩]
  else
    ⟨0, 1, "Pobieranie listy bundli…"⟩ ::
    ⟨1, 1 + K, "Przetwarzanie listy bundli…"⟩ ::
    ((List.range K).map fun c =>
      ⟨2 + c, 1 + K, "Pobieranie szczegółów bundli: " ++ toString (c + 1) ++ "/" ++ toString K⟩) ++
    [⟨1 + K, 1 + K, "Zakończono pobieranie bundli."⟩]

/-- Observable pieces of one successful `fetchBundleNames` run. -/
structure RunOutcome where
  bundleIds : List String
  metadataResults : List (Option BundleInfo)
  result : List BundleInfo
  progress : List BundleFetchProgress
deriving Repr, DecidableEq

/-- Embedding of `fetchBundleNames`: blank-id validation, candidate
discovery (fatal on failure), per-candidate detail fetches (never
fatal), aggregation, and the emitted progress trace. -/
def fetchBundleNamesModel (cfg : RuntimeConfig) (net : String → FetchOutcome)
    (appId : String) : Except JsError RunOutcome :=
  let cleanId := jsTrim appId
  if cleanId = "" then .error ⟨"Error", "AppID is required", none⟩
  else
    match fetchBundleIdsM cfg net cleanId with
    | .error e => .error e
    | .ok bundleIds =>
      if bundleIds.isEmpty then .ok ⟨[], [], [], progressTrace 0⟩
      else
        let results := fetchBundleMetadata cfg net bundleIds
        .ok ⟨bundleIds, results, aggregateBundles cleanId bundleIds results,
          progressTrace bundleIds.length⟩

/-! ### Concurrency limiter (`createLimiter`)

The limiter's behaviour is a state machine over its `active` counter
and `queue`: `submit` is a `schedule` call (push then `next()`), and
`complete` is the `finally` of a running task (decrement then
`next()`).  Single-threaded JS makes each handler atomic. -/

/-- Limiter state: the `active` count and `queue` of the source, plus
the derived running set, cumulative start order, and completion log. -/
structure LimState where
  active : Nat
  queue : List Nat
  running : List Nat
  started : List Nat
  finished : List Nat
deriving Repr, DecidableEq

/-- The idle limiter. -/
def LimState.init : LimState := ⟨0, [], [], [], []⟩

/-- A `schedule` call or the completion of a running task. -/
inductive LimEvent where
  | submit (t : Nat)
  | complete (t : Nat)

/-- The `next()` drain loop: while a slot is free and the queue is
non-empty, start the queue head. -/
def drainGo (limit : Rat) :
    List Nat → Nat → List Nat → List Nat → Nat × List Nat × List Nat × List Nat
  | [], active, running, started => (active, [], running, started)
  | t :: rest, active, running, started =>
    if (active : Rat) < limit then
      drainGo limit rest (active + 1) (running ++ [t]) (started ++ [t])
    else (active, t :: rest, running, started)

/-- `next()` on a full state. -/
def drain (limit : Rat) (s : LimState) : LimState :=
  let r := drainGo limit s.queue s.active s.running s.started
  ⟨r.1, r.2.1, r.2.2.1, r.2.2.2, s.finished⟩

/-- One event of the gated limiter (finite limit, not below 1). -/
def gatedStep (limit : Rat) (s : LimState) : LimEvent → LimState
  | .submit t => drain limit { s with queue := s.queue ++ [t] }
  | .complete t =>
    if s.running.contains t then
      drain limit
        { s with
          active := s.active - 1
          running := s.running.erase t
          finished := s.finished ++ [t] }
    else s

/-- One event of the degraded limiter: every task runs immediately. -/
def unlimitedStep (s : LimState) : LimEvent → LimState
  | .submit t =>
    { s with active := s.active + 1, running := s.running ++ [t], started := s.started ++ [t] }
  | .complete t =>
    if s.running.contains t then
      { s with
        active := s.active - 1
        running := s.running.erase t
        finished := s.finished ++ [t] }
    else s

/-- Embedding of `createLimiter`: `!Number.isFinite(limit) || limit < 1`
degrades to unlimited immediate execution, otherwise the gated
machine runs. -/
def createLimiterStep (limit : JsNum) : LimState → LimEvent → LimState :=
  match limit with
  | .fin q => if q < 1 then unlimitedStep else gatedStep q
  | _ => unlimitedStep

/-- Run the limiter machine over an event sequence. -/
def runLimiter (limit : JsNum) (events : List LimEvent) : LimState :=
  events.foldl (createLimiterStep limit) LimState.init

/-- The tasks submitted in an event sequence, in submission order. -/
def submittedTasks (events : List LimEvent) : List Nat :=
  events.filterMap fun e =>
    match e with
    | .submit t => some t
    | .complete _ => none

/-- A limit the source degrades to unlimited immediate execution:
`!Number.isFinite(limit) || limit < 1`. -/
def limitDegenerate (limit : JsNum) : Prop :=
  match limit with
  | .fin q => q < 1
  | _ => True

/-- The degraded limiter run (every task starts at submission). -/
def runUnlimited (events : List LimEvent) : LimState :=
  events.foldl unlimitedStep LimState.init

/-! ### Claim-side characterizations -/

/-- A fetch outcome that is not a success (any failed attempt). -/
def netFails (o : FetchOutcome) : Prop := ∀ b, o ≠ .success b

/-- The attempt record the loop accumulates for a failing URL. -/
def attemptFor (net : String → FetchOutcome) (u : String) : AttemptRecord :=
  match net u with
  | .success _ => ⟨u, ⟨"", "", none⟩⟩
  | .httpError st stTxt _ => ⟨u, httpStatusError st stTxt⟩
  | .networkError nm msg => ⟨u, ⟨nm, msg, none⟩⟩

/-- The ids the embedded-JSON discovery strategy contributes, in
payload order (blank entries dropped). -/
def jsonIdsOf (html : String) : List String :=
  match reFirst BUNDLE_LIST_ATTR_REGEX html.data with
  | some caps =>
    match jsonParse (capGet caps 1) with
    | .ok (.jarr vs) =>
      vs.filterMap fun v =>
        let id := jsTrimL (jsToString ((capGet caps 1).length + 1) v)
        if id = [] then none else some (strOf id)
    | _ => []
  | none => []

/-- The ids the hyperlink discovery strategy contributes, in match
order. -/
def linkIdsOf (html : String) : List String :=
  (reExecAll BUNDLE_LINK_REGEX html.data).filterMap fun caps =>
    let id := jsTrimL (capGet caps 1)
    if id = [] then none else some (strOf id)

/-- Union with set semantics in first-seen order. -/
def firstSeenUnion (a b : List String) : List String :=
  (a ++ b).foldl jsSetInsert []

/-! ### Concrete inputs used by witnesses and counterexamples -/

/-- Non-browser runtime (no proxies). -/
def exCfg : RuntimeConfig := ⟨false, none⟩

/-- Browser runtime without proxy override. -/
def exBrowserCfg : RuntimeConfig := ⟨true, none⟩

/-- A list page exposing two bundle links. -/
def exListHtml : String :=
  "x https://store.steampowered.com/bundle/100 y https://store.steampowered.com/bundle/200 z"

/-- A detail page with a pageheader title and one item anchor. -/
def exDetailHtml : String :=
  "<h2 class=\"pageheader\">Cool Bundle</h2><a data-ds-appid=\"333\"><div class=\"tab_item_name\">Game A</div></a>"

/-- Network oracle: the list page for subject 111 and the detail page
of bundle 200 resolve; everything else (including bundle 100's detail
page) fails with a transport error. -/
def exNet : String → FetchOutcome := fun u =>
  if u == "https://store.steampowered.com/bundlelist/111" then .success exListHtml
  else if u == "https://store.steampowered.com/bundle/200?l=english&cc=us" then .success exDetailHtml
  else .networkError "TypeError" "Failed to fetch"

/-- The example run. -/
def exRun : Except JsError RunOutcome := fetchBundleNamesModel exCfg exNet "111"

/-- The example run's outcome. -/
def exOut : RunOutcome :=
  match exRun with
  | .ok o => o
  | .error _ => ⟨[], [], [], []⟩

/-- Network oracle for the fallback-ordering scenario: direct URL
returns HTTP 500, the first proxy fails at transport level, the second
proxy succeeds. -/
def exC3net : String → FetchOutcome := fun u =>
  if u == "https://cors.isomorphic-git.org/https://x.example/a" then .success "BODY"
  else if u == "https://x.example/a" then .httpError 500 "" "oops"
  else .networkError "TypeError" "Failed to fetch"

/-- Listing page with a malformed inclusion payload on the first
anchor and a matching second anchor. -/
def exC2Html : String :=
  "<a data-ds-bundleid=\"1\" data-ds-bundle-data=\"oops\"><span class=\"title\">A</span></a><a data-ds-bundleid=\"2\" data-ds-bundle-data=\"\x7b&quot;m_rgItems&quot;:[\x7b&quot;m_rgIncludedAppIDs&quot;:[7]\x7d]\x7d\"><span class=\"title\">B</span></a>"

/-- List page exercising both discovery strategies with one overlap. -/
def exC4Html : String :=
  "<div data-bundle_list=\"[300,100]\"/> https://store.steampowered.com/bundle/100 https://store.steampowered.com/bundle/200"

/-- Detail page whose structured anchors repeat one item id. -/
def exC6Html : String := "<a data-ds-appid=\"1\">x</a><a data-ds-appid=\"1\">y</a>"

/-- A sanitized-markdown detail page with a repeated item link. -/
def exC6Md : String :=
  "Markdown Content:\nItems included in this bundle\nhttps://store.steampowered.com/app/10/Half/\nHalf-Life\nhttps://store.steampowered.com/app/10/Other/\nMore like this"

/-- Two game records sharing one item id. -/
def exG1 : BundleGameInfo := ⟨"1", some "first", none, none, none, none⟩

/-- The duplicate occurrence of item id 1. -/
def exG2 : BundleGameInfo := ⟨"1", some "second", none, none, none, none⟩

/-! # Theorems -/

/-- Bridge between `List.contains` and membership. -/
theorem containsP {α : Type} [BEq α] [LawfulBEq α] {l : List α} {x : α} :
    l.contains x = true ↔ x ∈ l := by
  simp [List.contains, List.elem_iff]

/-- Survivors of the games `seen` filter: not previously seen, and each
one is the first occurrence of its id in the scanned list. -/
theorem dedupGamesGo_mem :
    ∀ (l : List BundleGameInfo) (seen : List String) (g : BundleGameInfo),
      g ∈ dedupGamesGo seen l →
      g.appId ∉ seen ∧ l.find? (fun x => x.appId == g.appId) = some g := by
  intro l
  induction l with
  | nil => intro seen g h; simp [dedupGamesGo] at h
  | cons x rest ih =>
    intro seen g h
    by_cases hm : x.appId ∈ seen
    · have hrec : g ∈ dedupGamesGo seen rest := by
        simpa [dedupGamesGo, hm] using h
      obtain ⟨h1, h2⟩ := ih seen g hrec
      have hne : (x.appId == g.appId) = false := by
        simp only [beq_eq_false_iff_ne, ne_eq]
        intro he
        exact h1 (he ▸ hm)
      exact ⟨h1, by simp only [List.find?, hne]; exact h2⟩
    · have h' : g ∈ x :: dedupGamesGo (x.appId :: seen) rest := by
        simpa [dedupGamesGo, hm] using h
      rcases List.mem_cons.mp h' with rfl | hrec
      · exact ⟨hm, by simp [List.find?]⟩
      · obtain ⟨h1, h2⟩ := ih (x.appId :: seen) g hrec
        have hgx : g.appId ≠ x.appId := fun he => h1 (by rw [he]; exact List.mem_cons_self _ _)
        have hne : (x.appId == g.appId) = false := by
          simp only [beq_eq_false_iff_ne, ne_eq]
          exact fun he => hgx he.symm
        refine ⟨fun hs => h1 (List.mem_cons_of_mem _ hs), ?_⟩
        simp only [List.find?, hne]
        exact h2

/-- The games `seen` filter leaves pairwise-distinct app ids. -/
theorem dedupGamesGo_nodup :
    ∀ (l : List BundleGameInfo) (seen : List String),
      ((dedupGamesGo seen l).map (·.appId)).Nodup := by
  intro l
  induction l with
  | nil => intro seen; simp [dedupGamesGo]
  | cons x rest ih =>
    intro seen
    by_cases hm : x.appId ∈ seen
    · simpa [dedupGamesGo, hm] using ih seen
    · have heq : dedupGamesGo seen (x :: rest) = x :: dedupGamesGo (x.appId :: seen) rest := by
        simp [dedupGamesGo, hm]
      rw [heq]
      simp only [List.map_cons, List.nodup_cons]
      refine ⟨?_, ih (x.appId :: seen)⟩
      intro hmem
      obtain ⟨g, hg, hgid⟩ := List.mem_map.mp hmem
      exact (dedupGamesGo_mem rest (x.appId :: seen) g hg).1 (by rw [hgid]; exact List.mem_cons_self _ _)

/-- Survivors of the bundle `seen` filter: not previously seen, and
each one is the first record carrying its id. -/
theorem dedupById_mem :
    ∀ (l : List BundleInfo) (seen : List String) (b : BundleInfo),
      b ∈ dedupById seen l →
      b.id ∉ seen ∧ l.find? (fun x => x.id == b.id) = some b := by
  intro l
  induction l with
  | nil => intro seen b h; simp [dedupById] at h
  | cons x rest ih =>
    intro seen b h
    by_cases hm : x.id ∈ seen
    · have hrec : b ∈ dedupById seen rest := by
        simpa [dedupById, hm] using h
      obtain ⟨h1, h2⟩ := ih seen b hrec
      have hne : (x.id == b.id) = false := by
        simp only [beq_eq_false_iff_ne, ne_eq]
        intro he
        exact h1 (he ▸ hm)
      exact ⟨h1, by simp only [List.find?, hne]; exact h2⟩
    · have h' : b ∈ x :: dedupById (x.id :: seen) rest := by
        simpa [dedupById, hm] using h
      rcases List.mem_cons.mp h' with rfl | hrec
      · exact ⟨hm, by simp [List.find?]⟩
      · obtain ⟨h1, h2⟩ := ih (x.id :: seen) b hrec
        have hgx : b.id ≠ x.id := fun he => h1 (by rw [he]; exact List.mem_cons_self _ _)
        have hne : (x.id == b.id) = false := by
          simp only [beq_eq_false_iff_ne, ne_eq]
          exact fun he => hgx he.symm
        refine ⟨fun hs => h1 (List.mem_cons_of_mem _ hs), ?_⟩
        simp only [List.find?, hne]
        exact h2

/-- The bundle `seen` filter leaves pairwise-distinct bundle ids. -/
theorem dedupById_nodup :
    ∀ (l : List BundleInfo) (seen : List String),
      ((dedupById seen l).map (·.id)).Nodup := by
  intro l
  induction l with
  | nil => intro seen; simp [dedupById]
  | cons x rest ih =>
    intro seen
    by_cases hm : x.id ∈ seen
    · simpa [dedupById, hm] using ih seen
    · have heq : dedupById seen (x :: rest) = x :: dedupById (x.id :: seen) rest := by
        simp [dedupById, hm]
      rw [heq]
      simp only [List.map_cons, List.nodup_cons]
      refine ⟨?_, ih (x.id :: seen)⟩
      intro hmem
      obtain ⟨b, hb, hbid⟩ := List.mem_map.mp hmem
      exact (dedupById_mem rest (x.id :: seen) b hb).1 (by rw [hbid]; exact List.mem_cons_self _ _)

/-- The survivors form a sublist of the input (order preserved). -/
theorem dedupById_sublist :
    ∀ (l : List BundleInfo) (seen : List String), List.Sublist (dedupById seen l) l := by
  intro l
  induction l with
  | nil => intro seen; simp [dedupById]
  | cons x rest ih =>
    intro seen
    by_cases hm : x.id ∈ seen
    · have heq : dedupById seen (x :: rest) = dedupById seen rest := by
        simp [dedupById, hm]
      rw [heq]
      exact (ih seen).cons x
    · have heq : dedupById seen (x :: rest) = x :: dedupById (x.id :: seen) rest := by
        simp [dedupById, hm]
      rw [heq]
      exact (ih (x.id :: seen)).cons₂ x

/-- Membership after a JS `Set` insertion. -/
theorem mem_jsSetInsert {seen : List String} {x y : String} :
    y ∈ jsSetInsert seen x ↔ y ∈ seen ∨ y = x := by
  unfold jsSetInsert
  split
  · rename_i hc
    constructor
    · exact Or.inl
    · rintro (h | rfl)
      · exact h
      · exact containsP.mp hc
  · simp

/-- JS `Set` insertion preserves distinctness. -/
theorem nodup_jsSetInsert {seen : List String} (h : seen.Nodup) (x : String) :
    (jsSetInsert seen x).Nodup := by
  unfold jsSetInsert
  split
  · exact h
  · rename_i hc
    rw [List.nodup_append]
    refine ⟨h, List.nodup_singleton x, ?_⟩
    intro a ha hb
    rw [List.mem_singleton] at hb
    subst hb
    exact hc (containsP.mpr ha)

/-- Folding JS `Set` insertions preserves distinctness. -/
theorem nodup_foldl_jsSetInsert :
    ∀ (l : List String) (seen : List String), seen.Nodup →
      (l.foldl jsSetInsert seen).Nodup := by
  intro l
  induction l with
  | nil => intro seen h; exact h
  | cons x rest ih =>
    intro seen h
    exact ih (jsSetInsert seen x) (nodup_jsSetInsert h x)

/-- A fold that skips blank ids and inserts the rest equals the plain
`Set`-insertion fold over the filtered id list. -/
theorem foldl_skip_insert {β : Type} (f : β → List Char) :
    ∀ (l : List β) (acc : List String),
      l.foldl (fun a v => if f v = [] then a else jsSetInsert a (strOf (f v))) acc
        = (l.filterMap fun v => if f v = [] then none else some (strOf (f v))).foldl
            jsSetInsert acc := by
  intro l
  induction l with
  | nil => intro acc; rfl
  | cons x rest ih =>
    intro acc
    by_cases hx : f x = []
    · simp only [List.foldl_cons, List.filterMap_cons, hx, if_pos, ite_true]
      exact ih acc
    · simp only [List.foldl_cons, List.filterMap_cons, hx, ite_false, if_neg]
      exact ih (jsSetInsert acc (strOf (f x)))

/-- Members of the markdown-games loop output were never in `seen`. -/
theorem mdGamesGo_mem :
    ∀ (remaining relevant : List (List Char)) (seen : List String) (idx : Nat)
      (g : BundleGameInfo), g ∈ mdGamesGo relevant seen idx remaining →
      ¬ seen.contains g.appId = true := by
  intro remaining
  induction remaining with
  | nil => intro _ _ _ g h; simp [mdGamesGo] at h
  | cons line rest ih =>
    intro relevant seen idx g h
    rw [mdGamesGo] at h
    rcases hre : reFirst APP_LINK_REGEX line with _ | caps
    · rw [hre] at h
      exact ih relevant seen (idx + 1) g h
    · rw [hre] at h
      simp only at h
      split at h
      · exact ih relevant seen (idx + 1) g h
      · rename_i hcond
        rcases List.mem_cons.mp h with rfl | hrec
        · intro hc
          simp only [Bool.or_eq_true] at hcond
          exact hcond (Or.inr hc)
        · have := ih relevant (strOf (capGet caps 1) :: seen) (idx + 1) g hrec
          intro hc
          apply this
          rw [List.contains_cons]
          simp only [Bool.or_eq_true]
          exact Or.inr hc

/-- The markdown-games loop emits pairwise-distinct item ids. -/
theorem mdGamesGo_nodup :
    ∀ (remaining relevant : List (List Char)) (seen : List String) (idx : Nat),
      ((mdGamesGo relevant seen idx remaining).map (·.appId)).Nodup := by
  intro remaining
  induction remaining with
  | nil => intro _ _ _; simp [mdGamesGo]
  | cons line rest ih =>
    intro relevant seen idx
    rw [mdGamesGo]
    rcases hre : reFirst APP_LINK_REGEX line with _ | caps
    · exact ih relevant seen (idx + 1)
    · simp only
      split
      · exact ih relevant seen (idx + 1)
      · simp only [List.map_cons, List.nodup_cons]
        refine ⟨?_, ih relevant (strOf (capGet caps 1) :: seen) (idx + 1)⟩
        intro hmem
        obtain ⟨g, hg, hgid⟩ := List.mem_map.mp hmem
        apply mdGamesGo_mem rest relevant (strOf (capGet caps 1) :: seen) (idx + 1) g hg
        rw [List.contains_cons]
        simp only [Bool.or_eq_true]
        exact Or.inl (by simp [hgid])

/-- The markdown strategy's output ids are exactly the first-seen
deduplication of the ids matched on its lines: the first occurrence of
each id (in line order) survives, later duplicates are dropped. -/
theorem mdGamesGo_ids :
    ∀ (remaining relevant : List (List Char)) (seen : List String) (idx : Nat),
      (mdGamesGo relevant seen idx remaining).map (·.appId)
        = mdDedupIds seen (mdLineIds remaining) := by
  intro remaining
  induction remaining with
  | nil =>
    intro relevant seen idx
    rfl
  | cons line rest ih =>
    intro relevant seen idx
    rw [mdGamesGo]
    rcases hre : reFirst APP_LINK_REGEX line with _ | caps
    · have hl : mdLineIds (line :: rest) = mdLineIds rest := by
        simp [mdLineIds, List.filterMap_cons, hre]
      simp only [hre, hl]
      exact ih relevant seen (idx + 1)
    · have hl : mdLineIds (line :: rest) = strOf (capGet caps 1) :: mdLineIds rest := by
        simp [mdLineIds, List.filterMap_cons, hre]
      simp only [hre, hl]
      rw [mdDedupIds]
      by_cases hcond : (strOf (capGet caps 1) = ""
          || seen.contains (strOf (capGet caps 1))) = true
      · rw [if_pos hcond, if_pos hcond]
        exact ih relevant seen (idx + 1)
      · rw [if_neg hcond, if_neg hcond, List.map_cons]
        exact congrArg (fun l => strOf (capGet caps 1) :: l)
          (ih relevant (strOf (capGet caps 1) :: seen) (idx + 1))

/-- Claim C6 counterexample: an input whose structured markup repeats
item id 1 makes `extractBundleGamesFromHtml` return two entries with
the same item id — the structured strategy does not deduplicate. -/
theorem claim6_counterexample :
    (extractBundleGamesFromHtml exC6Html.data).map (·.appId) = ["1", "1"] ∧
    ¬ ((extractBundleGamesFromHtml exC6Html.data).map (·.appId)).Nodup := by
  constructor
  · decide
  · decide

/-- Claim C6 (amended): the markdown fallback deduplicates item ids —
its output ids are pairwise distinct, and are exactly the first-seen
deduplication of the ids matched on its relevant lines (the first
occurrence in line order wins, later duplicates are dropped); the
pipeline's aggregation-time `deduplicateGames` keeps exactly the first
occurrence per id; the structured-markup strategy itself preserves
duplicates. -/
theorem claim6_dedup_amended :
    (∀ html : List Char,
      ((extractBundleGamesFromSanitizedMarkdown html).map (·.appId)).Nodup) ∧
    (∀ html : List Char, ∃ relevant : List (List Char),
      extractBundleGamesFromSanitizedMarkdown html = mdGamesGo relevant [] 0 relevant ∧
      (extractBundleGamesFromSanitizedMarkdown html).map (·.appId)
        = mdDedupIds [] (mdLineIds relevant)) ∧
    (∀ games : List BundleGameInfo,
      ((deduplicateGames games).map (·.appId)).Nodup ∧
      ∀ g ∈ deduplicateGames games,
        games.find? (fun x => x.appId == g.appId) = some g) := by
  refine ⟨?_, ?_, ?_⟩
  · intro html
    simp only [extractBundleGamesFromSanitizedMarkdown]
    split
    · simp
    · exact mdGamesGo_nodup _ _ _ _
  · intro html
    simp only [extractBundleGamesFromSanitizedMarkdown]
    split
    · exact ⟨[], rfl, rfl⟩
    · exact ⟨_, rfl, mdGamesGo_ids _ _ _ _⟩
  · intro games
    exact ⟨dedupGamesGo_nodup games [],
      fun g hg => (dedupGamesGo_mem games [] g hg).2⟩

/-- Claim C6 (amended) witness: the markdown page with a repeated link
yields distinct ids, and `deduplicateGames` keeps the first of two
records sharing id 1. -/
theorem claim6_amended_witness :
    ((extractBundleGamesFromSanitizedMarkdown exC6Md.data).map (·.appId)).Nodup ∧
    deduplicateGames [exG1, exG2] = [exG1] ∧
    [exG1, exG2].find? (fun x => x.appId == exG1.appId) = some exG1 := by
  refine ⟨claim6_dedup_amended.1 exC6Md.data, by decide, ?_⟩
  exact (claim6_dedup_amended.2.2 [exG1, exG2]).2 exG1 (by decide)

/-- Claim C4: `extractBundleIdsFromHtml` throws exactly when the
embedded bundle-list attribute is present but its content is not
parsable JSON (the error carrying the parse failure as its cause); when
the attribute is absent and no bundle link matches, it returns the
empty sequence; and a normal result is the union of the two strategies'
ids with set semantics in first-seen order, hence duplicate-free. -/
theorem claim4_extractBundleIdsFromHtml_errors (html : String) :
    ((∃ e, extractBundleIdsFromHtml html = .error e) ↔
      (∃ caps, reFirst BUNDLE_LIST_ATTR_REGEX html.data = some caps ∧
        ∃ msg, jsonParse (capGet caps 1) = .error msg)) ∧
    (∀ e, extractBundleIdsFromHtml html = .error e →
      e.message = "Failed to parse bundle list from bundle list page" ∧
      e.cause.isSome = true) ∧
    (∀ l, extractBundleIdsFromHtml html = .ok l →
      l.Nodup ∧ l = firstSeenUnion (jsonIdsOf html) (linkIdsOf html)) ∧
    (reFirst BUNDLE_LIST_ATTR_REGEX html.data = none →
      reExecAll BUNDLE_LINK_REGEX html.data = [] →
      extractBundleIdsFromHtml html = .ok []) := by
  have hlinkfold : ∀ acc : List String,
      (reExecAll BUNDLE_LINK_REGEX html.data).foldl (fun seen caps =>
        if jsTrimL (capGet caps 1) = [] then seen
        else jsSetInsert seen (strOf (jsTrimL (capGet caps 1)))) acc
      = (linkIdsOf html).foldl jsSetInsert acc := by
    intro acc
    unfold linkIdsOf
    exact foldl_skip_insert (fun caps => jsTrimL (capGet caps 1)) _ acc
  rcases hattr : reFirst BUNDLE_LIST_ATTR_REGEX html.data with _ | caps
  · have hres : extractBundleIdsFromHtml html = .ok ((linkIdsOf html).foldl jsSetInsert []) := by
      simp only [extractBundleIdsFromHtml]
      rw [hattr]
      simp only
      rw [hlinkfold]
    have hjson : jsonIdsOf html = [] := by
      unfold jsonIdsOf
      rw [hattr]
    refine ⟨?_, ?_, ?_, ?_⟩
    · constructor
      · rintro ⟨e, he⟩
        rw [hres] at he
        cases he
      · rintro ⟨caps, hc, _⟩
        cases hc
    · intro e he
      rw [hres] at he
      cases he
    · intro l hl
      rw [hres] at hl
      injection hl with hl
      subst hl
      refine ⟨nodup_foldl_jsSetInsert _ [] List.nodup_nil, ?_⟩
      unfold firstSeenUnion
      rw [hjson, List.nil_append]
    · intro _ hlinks
      rw [hres]
      congr 1
      unfold linkIdsOf
      rw [hlinks]
      rfl
  · rcases hparse : jsonParse (capGet caps 1) with msg | v
    · have hres : extractBundleIdsFromHtml html =
          .error ⟨"Error", "Failed to parse bundle list from bundle list page",
            some ("SyntaxError", msg)⟩ := by
        simp only [extractBundleIdsFromHtml]
        rw [hattr]
        simp only
        rw [hparse]
      refine ⟨?_, ?_, ?_, ?_⟩
      · exact ⟨fun _ => ⟨caps, rfl, msg, hparse⟩, fun _ => ⟨_, hres⟩⟩
      · intro e he
        rw [hres] at he
        injection he with he
        subst he
        exact ⟨rfl, rfl⟩
      · intro l hl
        rw [hres] at hl
        cases hl
      · intro habs _
        cases habs
    · have hjsonIds : jsonIdsOf html = (match v with
          | .jarr vs => vs.filterMap fun v2 =>
              let id := jsTrimL (jsToString ((capGet caps 1).length + 1) v2)
              if id = [] then none else some (strOf id)
          | _ => []) := by
        unfold jsonIdsOf
        rw [hattr]
        simp only [hparse]
        cases v <;> rfl
      have hshape : ∃ A, extractBundleIdsFromHtml html = .ok ((linkIdsOf html).foldl jsSetInsert A) ∧
          A = (jsonIdsOf html).foldl jsSetInsert [] := by
        simp only [extractBundleIdsFromHtml]
        rw [hattr]
        simp only
        rw [hparse]
        cases v with
        | jarr vs =>
          refine ⟨vs.foldl (fun seen v2 =>
              if jsTrimL (jsToString ((capGet caps 1).length + 1) v2) = [] then seen
              else jsSetInsert seen (strOf (jsTrimL (jsToString ((capGet caps 1).length + 1) v2)))) [],
            ?_, ?_⟩
          · simp only
            rw [hlinkfold]
          · rw [hjsonIds]
            exact foldl_skip_insert (fun v2 => jsTrimL (jsToString ((capGet caps 1).length + 1) v2)) vs []
        | jnull => exact ⟨[], by simp only; rw [hlinkfold], by rw [hjsonIds]; rfl⟩
        | jbool b => exact ⟨[], by simp only; rw [hlinkfold], by rw [hjsonIds]; rfl⟩
        | jnum q => exact ⟨[], by simp only; rw [hlinkfold], by rw [hjsonIds]; rfl⟩
        | jstr s => exact ⟨[], by simp only; rw [hlinkfold], by rw [hjsonIds]; rfl⟩
        | jobj fs => exact ⟨[], by simp only; rw [hlinkfold], by rw [hjsonIds]; rfl⟩
      obtain ⟨A, hres, hAeq⟩ := hshape
      refine ⟨?_, ?_, ?_, ?_⟩
      · constructor
        · rintro ⟨e, he⟩
          rw [hres] at he
          cases he
        · rintro ⟨caps2, hc, msg, hp⟩
          injection hc with hc
          subst hc
          rw [hparse] at hp
          cases hp
      · intro e he
        rw [hres] at he
        cases he
      · intro l hl
        rw [hres] at hl
        injection hl with hl
        subst hl
        constructor
        · refine nodup_foldl_jsSetInsert _ A ?_
          rw [hAeq]
          exact nodup_foldl_jsSetInsert _ [] List.nodup_nil
        · unfold firstSeenUnion
          rw [List.foldl_append, ← hAeq]
      · intro habs _
        cases habs

/-- Claim C4 witness: a page exercising both strategies with one
overlapping id yields the duplicate-free first-seen union. -/
theorem claim4_witness :
    extractBundleIdsFromHtml exC4Html = .ok ["300", "100", "200"] ∧
    List.Nodup ["300", "100", "200"] ∧
    ["300", "100", "200"] = firstSeenUnion (jsonIdsOf exC4Html) (linkIdsOf exC4Html) := by
  have h : extractBundleIdsFromHtml exC4Html = .ok ["300", "100", "200"] := by
    with_unfolding_all rfl
  have h2 := (claim4_extractBundleIdsFromHtml_errors exC4Html).2.2.1 ["300", "100", "200"] h
  exact ⟨h, h2.1, h2.2⟩

/-- The fetch loop returns the first successful candidate immediately:
no retries, and later candidates are not contacted. -/
theorem fetchLoop_first_success (net : String → FetchOutcome) (desc : String) :
    ∀ (pre : List String) (u : String) (post : List String) (b : String)
      (attempts : List AttemptRecord),
      (∀ v ∈ pre, netFails (net v)) → net u = .success b →
      fetchLoop net desc (pre ++ u :: post) attempts = (.ok (u, b), pre ++ [u]) := by
  intro pre
  induction pre with
  | nil =>
    intro u post b attempts hpre hu
    simp only [List.nil_append, fetchLoop]
    rw [hu]
  | cons w pre ih =>
    intro u post b attempts hpre hu
    have hw := hpre w (List.mem_cons_self _ _)
    cases hnw : net w with
    | success body => exact absurd hnw (hw body)
    | httpError st stTxt bo =>
      simp only [List.cons_append, fetchLoop]
      rw [hnw]
      simp only [List.append_eq]
      rw [ih u post b _ (fun v hv => hpre v (List.mem_cons_of_mem _ hv)) hu]
    | networkError nm msg =>
      simp only [List.cons_append, fetchLoop]
      rw [hnw]
      simp only [List.append_eq]
      rw [ih u post b _ (fun v hv => hpre v (List.mem_cons_of_mem _ hv)) hu]

/-- When every candidate fails, the loop visits all of them and throws
the aggregated error built from their attempt records in order. -/
theorem fetchLoop_all_fail (net : String → FetchOutcome) (desc : String) :
    ∀ (urls : List String) (attempts : List AttemptRecord),
      (∀ v ∈ urls, netFails (net v)) →
      fetchLoop net desc urls attempts =
        (.error (aggregatedError desc (attempts ++ urls.map (attemptFor net))), urls) := by
  intro urls
  induction urls with
  | nil => intro attempts h; simp [fetchLoop]
  | cons u rest ih =>
    intro attempts h
    have hu := h u (List.mem_cons_self _ _)
    cases hnu : net u with
    | success body => exact absurd hnu (hu body)
    | httpError st stTxt bo =>
      have hafor : attemptFor net u = ⟨u, httpStatusError st stTxt⟩ := by
        unfold attemptFor
        rw [hnu]
      simp only [fetchLoop]
      rw [hnu]
      simp only
      rw [ih _ (fun v hv => h v (List.mem_cons_of_mem _ hv))]
      simp [hafor, List.append_assoc]
    | networkError nm msg =>
      have hafor : attemptFor net u = ⟨u, ⟨nm, msg, none⟩⟩ := by
        unfold attemptFor
        rw [hnu]
      simp only [fetchLoop]
      rw [hnu]
      simp only
      rw [ih _ (fun v hv => h v (List.mem_cons_of_mem _ hv))]
      simp [hafor, List.append_assoc]

/-- Claim C3: `fetchTextFromSteam` tries candidates strictly in order,
returns the body of the first candidate with a successful status
without trying any later candidate (the returned trace is exactly the
failing prefix plus the winner), and when every candidate fails it
throws the aggregated error enumerating every attempted URL with its
failure in attempt order. -/
theorem claim3_fetchTextFromSteam_order (cfg : RuntimeConfig)
    (net : String → FetchOutcome) (url resourceDescription : String) :
    (∀ (pre : List String) (u : String) (post : List String) (b : String),
      url :: getProxyUrls cfg url = pre ++ u :: post →
      (∀ v ∈ pre, netFails (net v)) → net u = .success b →
      fetchTextFromSteam cfg net url resourceDescription = (.ok (u, b), pre ++ [u])) ∧
    ((∀ v ∈ url :: getProxyUrls cfg url, netFails (net v)) →
      fetchTextFromSteam cfg net url resourceDescription =
        (.error (aggregatedError resourceDescription
          ((url :: getProxyUrls cfg url).map (attemptFor net))),
         url :: getProxyUrls cfg url)) := by
  constructor
  · intro pre u post b hsplit hpre hu
    unfold fetchTextFromSteam
    rw [hsplit]
    exact fetchLoop_first_success net _ pre u post b [] hpre hu
  · intro hall
    unfold fetchTextFromSteam
    rw [fetchLoop_all_fail net _ _ [] hall]
    simp

/-- Claim C3 witness: a failing direct URL (HTTP 500), a failing first
proxy (transport error), and a succeeding second proxy — the result is
the second proxy's body and exactly three URLs were attempted, in
order. -/
theorem claim3_witness :
    fetchTextFromSteam exBrowserCfg exC3net "https://x.example/a" "zasobu" =
      (.ok ("https://cors.isomorphic-git.org/https://x.example/a", "BODY"),
       ["https://x.example/a", "https://r.jina.ai/https://x.example/a",
        "https://cors.isomorphic-git.org/https://x.example/a"]) := by
  have hsplit : "https://x.example/a" :: getProxyUrls exBrowserCfg "https://x.example/a" =
      ["https://x.example/a", "https://r.jina.ai/https://x.example/a"] ++
        "https://cors.isomorphic-git.org/https://x.example/a" :: [] := by decide
  have hpre : ∀ v ∈ ["https://x.example/a", "https://r.jina.ai/https://x.example/a"],
      netFails (exC3net v) := by
    intro v hv
    fin_cases hv
    · intro b hb
      rw [show exC3net "https://x.example/a" = .httpError 500 "" "oops" from rfl] at hb
      cases hb
    · intro b hb
      rw [show exC3net "https://r.jina.ai/https://x.example/a"
            = .networkError "TypeError" "Failed to fetch" from rfl] at hb
      cases hb
  have h := (claim3_fetchTextFromSteam_order exBrowserCfg exC3net
      "https://x.example/a" "zasobu").1
    ["https://x.example/a", "https://r.jina.ai/https://x.example/a"]
    "https://cors.isomorphic-git.org/https://x.example/a" [] "BODY" hsplit hpre rfl
  simpa using h

/-- The anchor loop is the `filterMap` of the per-anchor decision. -/
theorem bundlesLoop_eq_filterMap (q : Rat) :
    ∀ ms : List Caps, bundlesLoop q ms = ms.filterMap (anchorRecord q) := by
  intro ms
  induction ms with
  | nil => rfl
  | cons m rest ih =>
    cases h : anchorRecord q m with
    | none =>
      simp only [bundlesLoop, List.filterMap_cons, h]
      exact ih
    | some b =>
      simp only [bundlesLoop, List.filterMap_cons, h]
      rw [ih]

/-- Deduplication is the identity on a list of records with pairwise
distinct ids, none of them seen before. -/
theorem dedupById_eq_self :
    ∀ (l : List BundleInfo) (seen : List String),
      (∀ b ∈ l, b.id ∉ seen) → (l.map (·.id)).Nodup → dedupById seen l = l := by
  intro l
  induction l with
  | nil => intro _ _ _; rfl
  | cons x rest ih =>
    intro seen h1 h2
    rw [List.map_cons, List.nodup_cons] at h2
    have hx : x.id ∉ seen := h1 x (List.mem_cons_self _ _)
    have hrest : ∀ b ∈ rest, b.id ∉ x.id :: seen := by
      intro b hb hmem
      rcases List.mem_cons.mp hmem with hbid | hbid
      · exact h2.1 (hbid ▸ List.mem_map.mpr ⟨b, hb, rfl⟩)
      · exact h1 b (List.mem_cons_of_mem _ hb) hbid
    have heq : dedupById seen (x :: rest) = x :: dedupById (x.id :: seen) rest := by
      simp [dedupById, hx]
    rw [heq, ih (x.id :: seen) hrest h2.2]

/-- `filterMap` keeps as many elements as the decision accepts. -/
theorem length_filterMap_eq_count {α β : Type} (f : α → Option β) :
    ∀ l : List α,
      (l.filterMap f).length = (l.filter (fun a => (f a).isSome)).length := by
  intro l
  induction l with
  | nil => rfl
  | cons x rest ih =>
    cases h : f x with
    | none => simp [List.filterMap_cons, List.filter_cons, h, ih]
    | some b => simp [List.filterMap_cons, List.filter_cons, h, ih]

/-- Claim C2: with a finite numeric subject id, the listing extractor
keeps exactly the anchors whose decoded payload parses and contains the
subject id and whose sibling title decodes non-empty, in first-seen
order; under distinct kept ids the output is exactly that list (its
length counts the matching anchors, and non-matching anchors contribute
nothing); an anchor whose payload fails to parse is skipped while the
remaining anchors are still processed. -/
theorem claim2_extractBundlesFromHtml_filtering (html appId : String) (q : Rat)
    (hnum : jsNumber appId = .fin q) :
    extractBundlesFromHtml html appId =
      deduplicateBundles
        ((reExecAll BUNDLE_ANCHOR_REGEX html.data).filterMap (anchorRecord q)) ∧
    ((((reExecAll BUNDLE_ANCHOR_REGEX html.data).filterMap (anchorRecord q)).map
        (·.id)).Nodup →
      extractBundlesFromHtml html appId =
        (reExecAll BUNDLE_ANCHOR_REGEX html.data).filterMap (anchorRecord q) ∧
      (extractBundlesFromHtml html appId).length =
        ((reExecAll BUNDLE_ANCHOR_REGEX html.data).filter
          (fun m => (anchorRecord q m).isSome)).length) ∧
    (∀ m ∈ reExecAll BUNDLE_ANCHOR_REGEX html.data,
      (∃ msg, jsonParse (decodeHtmlEntities (capGet m 2)) = .error msg) →
      anchorRecord q m = none) ∧
    (∀ pre m post, reExecAll BUNDLE_ANCHOR_REGEX html.data = pre ++ m :: post →
      anchorRecord q m = none →
      extractBundlesFromHtml html appId =
        deduplicateBundles
          (pre.filterMap (anchorRecord q) ++ post.filterMap (anchorRecord q))) := by
  have hbase : extractBundlesFromHtml html appId =
      deduplicateBundles
        ((reExecAll BUNDLE_ANCHOR_REGEX html.data).filterMap (anchorRecord q)) := by
    unfold extractBundlesFromHtml
    rw [hnum]
    simp only
    rw [bundlesLoop_eq_filterMap]
  refine ⟨hbase, ?_, ?_, ?_⟩
  · intro hnodup
    have hid : extractBundlesFromHtml html appId =
        (reExecAll BUNDLE_ANCHOR_REGEX html.data).filterMap (anchorRecord q) := by
      rw [hbase]
      exact dedupById_eq_self _ [] (fun b _ h => (List.not_mem_nil _ h).elim) hnodup
    refine ⟨hid, ?_⟩
    rw [hid]
    exact length_filterMap_eq_count (anchorRecord q) _
  · rintro m _ ⟨msg, hmsg⟩
    unfold anchorRecord
    simp only [hmsg]
  · intro pre m post hsplit hm
    rw [hbase, hsplit, List.filterMap_append, List.filterMap_cons, hm]

/-- Claim C2 witness: a page whose first anchor has a malformed payload
and whose second anchor matches subject 7 — processing continues past
the malformed anchor and yields exactly the matching record. -/
theorem claim2_witness :
    extractBundlesFromHtml exC2Html "7" =
      (reExecAll BUNDLE_ANCHOR_REGEX exC2Html.data).filterMap (anchorRecord 7) ∧
    (extractBundlesFromHtml exC2Html "7").length =
      ((reExecAll BUNDLE_ANCHOR_REGEX exC2Html.data).filter
        (fun m => (anchorRecord 7 m).isSome)).length := by
  have hq : jsNumber "7" = .fin 7 := by with_unfolding_all rfl
  refine (claim2_extractBundlesFromHtml_filtering exC2Html "7" 7 hq).2.1 ?_
  with_unfolding_all decide

/-- The `next()` drain loop: preserves the `active = running` count,
admits a task only while `active < limit` (so `active` never exceeds
`⌈limit⌉`), leaves a non-empty queue only when `active` is not below
the limit, and moves queued tasks to `started` front-first. -/
theorem drainGo_spec (q : Rat) :
    ∀ (queue : List Nat) (active : Nat) (running started : List Nat),
      active = running.length → active ≤ Nat.ceil q →
      (drainGo q queue active running started).1
        = (drainGo q queue active running started).2.2.1.length ∧
      (drainGo q queue active running started).1 ≤ Nat.ceil q ∧
      ((drainGo q queue active running started).2.1 ≠ [] →
        ¬(((drainGo q queue active running started).1 : Rat) < q)) ∧
      (drainGo q queue active running started).2.2.2
        ++ (drainGo q queue active running started).2.1 = started ++ queue := by
  intro queue
  induction queue with
  | nil =>
    intro active running started h1 h2
    simp only [drainGo]
    exact ⟨h1, h2, fun h => absurd rfl h, by simp⟩
  | cons t rest ih =>
    intro active running started h1 h2
    by_cases hlt : (active : Rat) < q
    · simp only [drainGo, if_pos hlt]
      have hrec := ih (active + 1) (running ++ [t]) (started ++ [t])
        (by simp [h1]) (Nat.succ_le_of_lt (Nat.lt_ceil.mpr hlt))
      refine ⟨hrec.1, hrec.2.1, hrec.2.2.1, ?_⟩
      rw [hrec.2.2.2]
      simp
    · simp only [drainGo, if_neg hlt]
      exact ⟨h1, h2, fun _ => hlt, trivial⟩

/-- One gated-limiter event preserves the machine invariants, and the
start order plus queue track the submission order. -/
theorem gatedStep_inv (q : Rat) (s : LimState) (e : LimEvent)
    (h1 : s.active = s.running.length) (h2 : s.active ≤ Nat.ceil q)
    (h3 : s.queue ≠ [] → ¬((s.active : Rat) < q)) :
    (gatedStep q s e).active = (gatedStep q s e).running.length ∧
    (gatedStep q s e).active ≤ Nat.ceil q ∧
    ((gatedStep q s e).queue ≠ [] → ¬(((gatedStep q s e).active : Rat) < q)) ∧
    (gatedStep q s e).started ++ (gatedStep q s e).queue
      = s.started ++ s.queue ++ submittedTasks [e] := by
  cases e with
  | submit t =>
    have hspec := drainGo_spec q (s.queue ++ [t]) s.active s.running s.started h1 h2
    simp only [gatedStep, drain]
    refine ⟨hspec.1, hspec.2.1, hspec.2.2.1, ?_⟩
    rw [hspec.2.2.2]
    simp [submittedTasks]
  | complete t =>
    by_cases hc : s.running.contains t = true
    · have hmem : t ∈ s.running := containsP.mp hc
      have hlen : (s.running.erase t).length = s.running.length - 1 :=
        List.length_erase_of_mem hmem
      have h1' : s.active - 1 = (s.running.erase t).length := by
        rw [hlen, h1]
      have h2' : s.active - 1 ≤ Nat.ceil q := le_trans (Nat.sub_le _ _) h2
      have hspec := drainGo_spec q s.queue (s.active - 1) (s.running.erase t)
        s.started h1' h2'
      simp only [gatedStep, if_pos hc, drain]
      refine ⟨hspec.1, hspec.2.1, hspec.2.2.1, ?_⟩
      rw [hspec.2.2.2]
      simp [submittedTasks]
    · simp only [gatedStep, if_neg hc]
      exact ⟨h1, h2, h3, by simp [submittedTasks]⟩

/-- Gated-limiter run invariants from any invariant-satisfying state. -/
theorem gatedRun_inv (q : Rat) :
    ∀ (events : List LimEvent) (s : LimState),
      s.active = s.running.length → s.active ≤ Nat.ceil q →
      (s.queue ≠ [] → ¬((s.active : Rat) < q)) →
      (events.foldl (gatedStep q) s).active
        = (events.foldl (gatedStep q) s).running.length ∧
      (events.foldl (gatedStep q) s).active ≤ Nat.ceil q ∧
      ((events.foldl (gatedStep q) s).queue ≠ [] →
        ¬(((events.foldl (gatedStep q) s).active : Rat) < q)) ∧
      (events.foldl (gatedStep q) s).started
          ++ (events.foldl (gatedStep q) s).queue
        = s.started ++ s.queue ++ submittedTasks events := by
  intro events
  induction events with
  | nil =>
    intro s h1 h2 h3
    exact ⟨h1, h2, h3, by simp [submittedTasks]⟩
  | cons e rest ih =>
    intro s h1 h2 h3
    have hstep := gatedStep_inv q s e h1 h2 h3
    have hrec := ih (gatedStep q s e) hstep.1 hstep.2.1 hstep.2.2.1
    refine ⟨hrec.1, hrec.2.1, hrec.2.2.1, ?_⟩
    rw [List.foldl_cons]
    rw [hrec.2.2.2, hstep.2.2.2]
    cases e <;> simp [submittedTasks, List.filterMap_cons]

/-- A limit that is finite and at least 1 selects the gated machine. -/
theorem createLimiterStep_gated {q : Rat} (hq : 1 ≤ q) :
    createLimiterStep (.fin q) = gatedStep q := by
  show (if q < 1 then unlimitedStep else gatedStep q) = gatedStep q
  rw [if_neg (not_lt.mpr hq)]

/-- A degenerate limit selects the unlimited machine. -/
theorem createLimiterStep_degenerate (limit : JsNum) (h : limitDegenerate limit) :
    createLimiterStep limit = unlimitedStep := by
  cases limit with
  | nan => rfl
  | inf b => rfl
  | fin q =>
    have hq : q < 1 := h
    show (if q < 1 then unlimitedStep else gatedStep q) = unlimitedStep
    rw [if_pos hq]

/-- One unlimited-machine event never touches the queue. -/
theorem unlimitedStep_queue (s : LimState) (e : LimEvent) :
    (unlimitedStep s e).queue = s.queue := by
  cases e with
  | submit t => rfl
  | complete t =>
    by_cases hc : s.running.contains t = true
    · simp only [unlimitedStep, if_pos hc]
    · simp only [unlimitedStep, if_neg hc]

/-- One unlimited-machine event extends `started` with its submission. -/
theorem unlimitedStep_started (s : LimState) (e : LimEvent) :
    (unlimitedStep s e).started = s.started ++ submittedTasks [e] := by
  cases e with
  | submit t => rfl
  | complete t =>
    by_cases hc : s.running.contains t = true
    · simp only [unlimitedStep, if_pos hc]
      simp [submittedTasks]
    · simp only [unlimitedStep, if_neg hc]
      simp [submittedTasks]

/-- The unlimited machine never queues and starts every submission
immediately, in submission order. -/
theorem unlimitedRun_spec :
    ∀ (events : List LimEvent) (s : LimState), s.queue = [] →
      (events.foldl unlimitedStep s).queue = [] ∧
      (events.foldl unlimitedStep s).started = s.started ++ submittedTasks events := by
  intro events
  induction events with
  | nil =>
    intro s hq
    exact ⟨hq, by simp [submittedTasks]⟩
  | cons e rest ih =>
    intro s hq
    rw [List.foldl_cons]
    have hrec := ih (unlimitedStep s e) (by rw [unlimitedStep_queue]; exact hq)
    refine ⟨hrec.1, ?_⟩
    rw [hrec.2, unlimitedStep_started]
    cases e <;> simp [submittedTasks, List.filterMap_cons]

/-- Claim C9 counterexample: the limit 1/2 is positive and finite, yet
two submitted tasks both run concurrently — the code degrades every
limit below 1 (not merely non-positive ones) to unlimited execution, so
"never more than `limit` running" fails at limit 1/2. -/
theorem claim9_counterexample :
    ((0 : Rat) < 1 / 2) ∧
    (runLimiter (.fin (1 / 2)) [.submit 0, .submit 1]).running.length = 2 ∧
    ¬(((runLimiter (.fin (1 / 2)) [.submit 0, .submit 1]).running.length : Rat) ≤ 1 / 2) := by
  refine ⟨by norm_num, by with_unfolding_all rfl, ?_⟩
  rw [show (runLimiter (.fin (1 / 2)) [.submit 0, .submit 1]).running.length = 2 from by
    with_unfolding_all rfl]
  norm_num

/-- Claim C9 (amended): for every finite limit at least 1 the limiter
starts tasks in submission order (`started ++ queue` is always the
submission sequence), admits a task only while the running count is
strictly below the limit — so the running count never exceeds
`⌈limit⌉`, and the queue is non-empty only while the running count is
not below the limit; completing a running task admits exactly the
queue head; a submission arriving while the running count is not below
the limit only queues; a limit that is non-finite or below 1 degrades
to unlimited immediate execution, where nothing ever queues and every
task starts at submission. -/
theorem claim9_limiter_amended :
    (∀ q : Rat, 1 ≤ q → ∀ events : List LimEvent,
      (runLimiter (.fin q) events).running.length ≤ Nat.ceil q ∧
      ((runLimiter (.fin q) events).queue ≠ [] →
        ¬(((runLimiter (.fin q) events).running.length : Rat) < q)) ∧
      (runLimiter (.fin q) events).started ++ (runLimiter (.fin q) events).queue
        = submittedTasks events) ∧
    (∀ q : Rat, 1 ≤ q → ∀ (events : List LimEvent) (t u : Nat) (rest : List Nat),
      (runLimiter (.fin q) events).queue = u :: rest →
      (runLimiter (.fin q) events).running.contains t = true →
      (runLimiter (.fin q) (events ++ [.complete t])).started
        = (runLimiter (.fin q) events).started ++ [u]) ∧
    (∀ q : Rat, 1 ≤ q → ∀ (events : List LimEvent) (t : Nat),
      ¬(((runLimiter (.fin q) events).running.length : Rat) < q) →
      (runLimiter (.fin q) (events ++ [.submit t])).started
        = (runLimiter (.fin q) events).started ∧
      (runLimiter (.fin q) (events ++ [.submit t])).queue
        = (runLimiter (.fin q) events).queue ++ [t]) ∧
    (∀ limit : JsNum, limitDegenerate limit → ∀ events : List LimEvent,
      (runLimiter limit events).queue = [] ∧
      (runLimiter limit events).started = submittedTasks events) := by
  have hrun : ∀ q : Rat, 1 ≤ q → ∀ events : List LimEvent,
      runLimiter (.fin q) events = events.foldl (gatedStep q) LimState.init := by
    intro q hq events
    unfold runLimiter
    rw [createLimiterStep_gated hq]
  have hinvInit : ∀ (q : Rat) (events : List LimEvent),
      (events.foldl (gatedStep q) LimState.init).active
        = (events.foldl (gatedStep q) LimState.init).running.length ∧
      (events.foldl (gatedStep q) LimState.init).active ≤ Nat.ceil q ∧
      ((events.foldl (gatedStep q) LimState.init).queue ≠ [] →
        ¬(((events.foldl (gatedStep q) LimState.init).active : Rat) < q)) ∧
      (events.foldl (gatedStep q) LimState.init).started
          ++ (events.foldl (gatedStep q) LimState.init).queue
        = submittedTasks events := by
    intro q events
    have := gatedRun_inv q events LimState.init rfl (Nat.zero_le _) (fun h => absurd rfl h)
    simpa [LimState.init] using this
  refine ⟨?_, ?_, ?_, ?_⟩
  · intro q hq events
    have h := hinvInit q events
    rw [hrun q hq events]
    exact ⟨h.1 ▸ h.2.1, fun hne => h.1 ▸ h.2.2.1 hne, h.2.2.2⟩
  · intro q hq events t u rest hqueue hc
    simp only [hrun q hq] at hqueue hc ⊢
    rw [List.foldl_append]
    have h := hinvInit q events
    set s := events.foldl (gatedStep q) LimState.init with hs
    have hfull : ¬((s.active : Rat) < q) :=
      h.2.2.1 (by rw [hqueue]; exact List.cons_ne_nil u rest)
    have hone : 1 ≤ s.active := by
      have hqle : q ≤ (s.active : Rat) := not_lt.mp hfull
      have h1le : (1 : Rat) ≤ (s.active : Rat) := le_trans hq hqle
      exact_mod_cast h1le
    have hlt : ((s.active - 1 : Nat) : Rat) < q := by
      have hcast : ((s.active - 1 : Nat) : Rat) = (s.active : Rat) - 1 := by
        push_cast [Nat.cast_sub hone]
        ring
      have hceil : ((Nat.ceil q : Nat) : Rat) < q + 1 :=
        Nat.ceil_lt_add_one (le_trans zero_le_one hq)
      have hle : ((s.active : Nat) : Rat) ≤ ((Nat.ceil q : Nat) : Rat) := by
        exact_mod_cast h.2.1
      rw [hcast]
      linarith
    simp only [List.foldl_cons, List.foldl_nil]
    simp only [gatedStep, if_pos hc, drain]
    rw [hqueue]
    have hstop : ∀ r2 s2 : List Nat,
        drainGo q rest s.active r2 s2 = (s.active, rest, r2, s2) := by
      intro r2 s2
      cases rest with
      | nil => rfl
      | cons r0 rrest => simp only [drainGo, if_neg hfull]
    have hn1 : s.active - 1 + 1 = s.active := by omega
    have hstep1 : drainGo q (u :: rest) (s.active - 1) (s.running.erase t) s.started
        = drainGo q rest s.active (s.running.erase t ++ [u]) (s.started ++ [u]) := by
      simp only [drainGo, if_pos hlt, hn1]
    rw [hstep1, hstop]
  · intro q hq events t hcap
    simp only [hrun q hq] at hcap ⊢
    rw [List.foldl_append]
    have h := hinvInit q events
    set s := events.foldl (gatedStep q) LimState.init with hs
    have hact : ¬((s.active : Rat) < q) := by
      rw [h.1]
      exact hcap
    simp only [List.foldl_cons, List.foldl_nil]
    simp only [gatedStep, drain]
    cases hqueue : s.queue with
    | nil =>
      simp only [hqueue, List.nil_append]
      simp only [drainGo, if_neg hact]
      exact ⟨trivial, trivial⟩
    | cons q0 qrest =>
      simp only [hqueue, List.cons_append]
      simp only [drainGo, if_neg hact]
      exact ⟨trivial, trivial⟩
  · intro limit hdeg events
    unfold runLimiter
    rw [createLimiterStep_degenerate limit hdeg]
    have := unlimitedRun_spec events LimState.init rfl
    simpa [LimState.init] using this

/-- Claim C9 (amended) witness: limit 5/2 with four submissions — the
running count stays within `⌈5/2⌉ = 3`, the queue holds the overflow
submission, and start order plus queue equals the submission list. -/
theorem claim9_witness :
    (runLimiter (.fin (5 / 2)) [.submit 0, .submit 1, .submit 2, .submit 3]).running.length
        ≤ Nat.ceil ((5 : Rat) / 2) ∧
    ((runLimiter (.fin (5 / 2)) [.submit 0, .submit 1, .submit 2, .submit 3]).queue ≠ [] →
      ¬(((runLimiter (.fin (5 / 2))
          [.submit 0, .submit 1, .submit 2, .submit 3]).running.length : Rat) < 5 / 2)) ∧
    (runLimiter (.fin (5 / 2)) [.submit 0, .submit 1, .submit 2, .submit 3]).started
        ++ (runLimiter (.fin (5 / 2)) [.submit 0, .submit 1, .submit 2, .submit 3]).queue
      = submittedTasks [.submit 0, .submit 1, .submit 2, .submit 3] :=
  claim9_limiter_amended.1 (5 / 2) (by with_unfolding_all decide)
    [.submit 0, .submit 1, .submit 2, .submit 3]

/-- A settled candidate record carries the candidate's own bundle id. -/
theorem candidateOutcome_id (cfg : RuntimeConfig) (net : String → FetchOutcome)
    (x : String) (b : BundleInfo)
    (h : candidateOutcome cfg net x = some b) : b.id = x := by
  unfold candidateOutcome fetchBundleDetails at h
  rcases hf : (fetchTextFromSteam cfg net (bundlePageUrlFor x) ("strony bundla " ++ x)).1
    with e | ⟨tag, body⟩
  · simp only [hf] at h
    exact Option.noConfusion h
  · simp only [hf] at h
    rcases ht : extractBundleTitle body.data with _ | name
    · simp only [ht] at h
      exact Option.noConfusion h
    · simp only [ht] at h
      injection h with h2
      subst h2
      rfl

/-- Claim C7: a single candidate whose limiter task settles absent
(detail-fetch failure or missing name) never aborts the batch: the run
still returns normally, that candidate contributes `none` to the
settled metadata list, every other candidate is still processed
(the settled list is exactly the per-candidate outcomes in submission
order), the failed candidate's id is absent from the final collection,
and the emitted progress is the full `K`-candidate trace with its
`K + 3` snapshots — the failed candidate contributes its one completion
tick like any successful one. -/
theorem claim7_candidate_failure_isolated (cfg : RuntimeConfig)
    (net : String → FetchOutcome) (appId : String) (ids : List String)
    (i : Nat) (d : String)
    (hblank : jsTrim appId ≠ "")
    (hids : fetchBundleIdsM cfg net (jsTrim appId) = .ok ids)
    (hne : ids ≠ [])
    (hd : ids.get? i = some d)
    (hfail : candidateOutcome cfg net d = none) :
    ∃ out : RunOutcome, fetchBundleNamesModel cfg net appId = .ok out ∧
      out.metadataResults.length = ids.length ∧
      out.metadataResults.get? i = some none ∧
      (∀ j, out.metadataResults.get? j = (ids.get? j).map (candidateOutcome cfg net)) ∧
      d ∉ out.result.map (·.id) ∧
      out.progress = progressTrace ids.length ∧
      out.progress.length = ids.length + 3 := by
  have hie : ids.isEmpty = false := by
    cases ids with
    | nil => exact absurd rfl hne
    | cons a l => rfl
  refine ⟨⟨ids, fetchBundleMetadata cfg net ids,
    aggregateBundles (jsTrim appId) ids (fetchBundleMetadata cfg net ids),
    progressTrace ids.length⟩, ?_, ?_, ?_, ?_, ?_, rfl, ?_⟩
  · simp only [fetchBundleNamesModel, if_neg hblank, hids]
    simp [hie]
  · simp [fetchBundleMetadata]
  · simp only [fetchBundleMetadata]
    rw [List.get?_map, hd]
    simp [hfail]
  · intro j
    simp [fetchBundleMetadata, List.get?_map]
  · intro hmem
    rw [List.mem_map] at hmem
    obtain ⟨b, hb, hbid⟩ := hmem
    have hperm := List.perm_insertionSort
      (fun a b => orderKey ids a.id ≤ orderKey ids b.id)
      ((deduplicateBundles (filteredRecords (fetchBundleMetadata cfg net ids))).map
        (sanitizeRecord (jsTrim appId)))
    have hb1 : b ∈ (deduplicateBundles (filteredRecords (fetchBundleMetadata cfg net ids))).map
        (sanitizeRecord (jsTrim appId)) := by
      refine hperm.mem_iff.mp ?_
      simpa [aggregateBundles] using hb
    obtain ⟨b0, hb0, hbeq⟩ := List.mem_map.mp hb1
    have hb0mem : b0 ∈ filteredRecords (fetchBundleMetadata cfg net ids) :=
      (dedupById_sublist _ _).subset hb0
    rw [filteredRecords, List.mem_filterMap] at hb0mem
    obtain ⟨ob, hob, hsome⟩ := hb0mem
    rw [fetchBundleMetadata, List.mem_map] at hob
    obtain ⟨d2, hd2mem, hd2eq⟩ := hob
    cases ob with
    | none => exact Option.noConfusion hsome
    | some b1 =>
      have hb1b0 : b1 = b0 := by
        by_cases hnm : jsTrim b1.name ≠ ""
        · simpa [hnm] using hsome
        · simp [hnm] at hsome
      have hco : candidateOutcome cfg net d2 = some b0 := by
        rw [hd2eq, hb1b0]
      have hid0 : b0.id = d2 := candidateOutcome_id cfg net d2 b0 hco
      have hbb0 : b.id = b0.id := by
        rw [← hbeq]
        rfl
      have hdd2 : d = d2 := by
        rw [← hbid, hbb0, hid0]
      rw [hdd2, hco] at hfail
      exact Option.noConfusion hfail
  · have hK : ¬(ids.length = 0) := by
      cases ids with
      | nil => exact absurd rfl hne
      | cons a l => simp
    simp [progressTrace, hK]

/-- Claim C7 witness: candidate 100 fails its detail fetch while
candidate 200 succeeds — the run returns normally with an absent slot
for 100, a processed slot for 200, no record with id 100, and the full
progress trace. -/
theorem claim7_witness :
    ∃ out : RunOutcome, fetchBundleNamesModel exCfg exNet "111" = .ok out ∧
      out.metadataResults.length = (["100", "200"] : List String).length ∧
      out.metadataResults.get? 0 = some none ∧
      (∀ j, out.metadataResults.get? j
        = ((["100", "200"] : List String).get? j).map (candidateOutcome exCfg exNet)) ∧
      "100" ∉ out.result.map (·.id) ∧
      out.progress = progressTrace (["100", "200"] : List String).length ∧
      out.progress.length = (["100", "200"] : List String).length + 3 :=
  claim7_candidate_failure_isolated exCfg exNet "111" ["100", "200"] 0 "100"
    (by with_unfolding_all decide) (by with_unfolding_all rfl) (by decide) rfl
    (by with_unfolding_all rfl)

/-- What a normal return of the orchestrator determines: the result is
the aggregation of the settled metadata, the metadata are the
per-candidate outcomes, and the progress trace is the `K`-candidate
trace. -/
theorem fetchBundleNamesModel_ok (cfg : RuntimeConfig) (net : String → FetchOutcome)
    (appId : String) (out : RunOutcome)
    (h : fetchBundleNamesModel cfg net appId = .ok out) :
    out.result = aggregateBundles (jsTrim appId) out.bundleIds out.metadataResults ∧
    out.metadataResults = fetchBundleMetadata cfg net out.bundleIds ∧
    out.progress = progressTrace out.bundleIds.length := by
  simp only [fetchBundleNamesModel] at h
  by_cases hb : jsTrim appId = ""
  · rw [if_pos hb] at h
    exact Except.noConfusion h
  · rw [if_neg hb] at h
    rcases hi : fetchBundleIdsM cfg net (jsTrim appId) with e | ids
    · simp only [hi] at h
      exact Except.noConfusion h
    · simp only [hi] at h
      by_cases hie : ids.isEmpty = true
      · rw [if_pos hie] at h
        injection h with h2
        subst h2
        exact ⟨rfl, rfl, rfl⟩
      · rw [if_neg hie] at h
        injection h with h2
        subst h2
        exact ⟨rfl, rfl, rfl⟩

/-- The emitted `current` values never decrease along the trace. -/
theorem progressTrace_pairwise (K : Nat) :
    ((progressTrace K).map (·.current)).Pairwise (· ≤ ·) := by
  by_cases hK : K = 0
  · subst hK
    simp [progressTrace]
  · simp only [progressTrace, if_neg hK, List.map_cons, List.map_append, List.map_map,
      List.map_nil, List.cons_append]
    rw [List.pairwise_cons]
    refine ⟨fun b _ => Nat.zero_le b, ?_⟩
    rw [List.pairwise_cons]
    refine ⟨?_, ?_⟩
    · intro b hb
      simp only [List.mem_append, List.mem_map, List.mem_range, Function.comp,
        List.mem_singleton] at hb
      rcases hb with ⟨c, hc, rfl⟩ | rfl
      · show 1 ≤ 2 + c
        omega
      · show 1 ≤ 1 + K
        omega
    rw [List.pairwise_append]
    refine ⟨?_, List.pairwise_singleton _ _, ?_⟩
    · rw [List.pairwise_map]
      refine (List.pairwise_lt_range K).imp ?_
      intro a b hab
      show 2 + a ≤ 2 + b
      omega
    · intro x hx y hy
      simp only [List.mem_singleton] at hy
      subst hy
      simp only [List.mem_map, List.mem_range, Function.comp] at hx
      obtain ⟨c, hc, rfl⟩ := hx
      show 2 + c ≤ 1 + K
      omega

/-- The trace opens with `current = 0`. -/
theorem progressTrace_head (K : Nat) :
    ((progressTrace K).map (·.current)).head? = some 0 := by
  by_cases hK : K = 0
  · subst hK
    rfl
  · simp [progressTrace, hK]

/-- The trace closes with `current = 1 + K`. -/
theorem progressTrace_last (K : Nat) :
    ((progressTrace K).map (·.current)).getLast? = some (1 + K) := by
  by_cases hK : K = 0
  · subst hK
    rfl
  · simp only [progressTrace, if_neg hK, List.map_cons, List.map_append, List.map_map,
      List.map_nil]
    exact List.getLast?_concat _

/-- Every snapshot respects `current ≤ total`. -/
theorem progressTrace_bounded (K : Nat) :
    ∀ p ∈ progressTrace K, p.current ≤ p.total := by
  intro p hp
  by_cases hK : K = 0
  · subst hK
    simp [progressTrace] at hp
    rcases hp with rfl | rfl <;> simp
  · simp only [progressTrace, if_neg hK, List.cons_append, List.mem_cons, List.mem_append,
      List.mem_map, List.mem_range, List.mem_singleton, List.not_mem_nil, or_false] at hp
    rcases hp with rfl | rfl | ⟨c, hc, rfl⟩ | rfl <;> simp <;> omega

/-- After the opening snapshot, `total` is fixed at `1 + K`. -/
theorem progressTrace_tail_total (K : Nat) :
    ∀ p ∈ (progressTrace K).tail, p.total = 1 + K := by
  intro p hp
  by_cases hK : K = 0
  · subst hK
    simp [progressTrace] at hp
    subst hp
    rfl
  · simp only [progressTrace, if_neg hK, List.cons_append, List.tail_cons, List.mem_cons,
      List.mem_append, List.mem_map, List.mem_range, List.mem_singleton, List.not_mem_nil,
      or_false] at hp
    rcases hp with rfl | ⟨c, hc, rfl⟩ | rfl <;> simp [Nat.add_comm]

/-- Claim C8: in every normal run the emitted progress is the full
`K`-candidate trace: `current` values are monotonically non-decreasing,
start at 0, end at `1 + K`, never exceed `total`, and every snapshot
after the opening one carries `total = 1 + K`. -/
theorem claim8_progress_monotone (cfg : RuntimeConfig) (net : String → FetchOutcome)
    (appId : String) (out : RunOutcome)
    (h : fetchBundleNamesModel cfg net appId = .ok out) :
    out.progress = progressTrace out.bundleIds.length ∧
    (out.progress.map (·.current)).Pairwise (· ≤ ·) ∧
    (out.progress.map (·.current)).head? = some 0 ∧
    (out.progress.map (·.current)).getLast? = some (1 + out.bundleIds.length) ∧
    (∀ p ∈ out.progress, p.current ≤ p.total) ∧
    (∀ p ∈ out.progress.tail, p.total = 1 + out.bundleIds.length) := by
  have hpt := (fetchBundleNamesModel_ok cfg net appId out h).2.2
  rw [hpt]
  exact ⟨rfl, progressTrace_pairwise _, progressTrace_head _, progressTrace_last _,
    progressTrace_bounded _, progressTrace_tail_total _⟩

/-- Claim C8 witness: the example run with two discovered candidates
emits the full monotone trace ending at 3. -/
theorem claim8_witness :
    exOut.progress = progressTrace exOut.bundleIds.length ∧
    (exOut.progress.map (·.current)).Pairwise (· ≤ ·) ∧
    (exOut.progress.map (·.current)).head? = some 0 ∧
    (exOut.progress.map (·.current)).getLast? = some (1 + exOut.bundleIds.length) ∧
    (∀ p ∈ exOut.progress, p.current ≤ p.total) ∧
    (∀ p ∈ exOut.progress.tail, p.total = 1 + exOut.bundleIds.length) :=
  claim8_progress_monotone exCfg exNet "111" exOut (by with_unfolding_all rfl)

/-- A record surviving the name filter has a non-blank name. -/
theorem filteredRecords_name (results : List (Option BundleInfo)) (r : BundleInfo)
    (hr : r ∈ filteredRecords results) : jsTrim r.name ≠ "" := by
  rw [filteredRecords, List.mem_filterMap] at hr
  obtain ⟨ob, _, hsome⟩ := hr
  cases ob with
  | none => exact Option.noConfusion hsome
  | some b1 =>
    by_cases hnm : jsTrim b1.name ≠ ""
    · have hb1 : b1 = r := by simpa [hnm] using hsome
      rw [← hb1]
      exact hnm
    · simp [hnm] at hsome

/-- Claim C1: every normal `fetchBundleNames` run returns a collection
in which every record has a non-blank name; bundle ids are pairwise
distinct and each record comes from the first surviving occurrence of
its id (sanitized); each record's games carry pairwise-distinct app ids
none of which equals the trimmed queried subject id; and the collection
is sorted by the candidate's discovery index (ids missing from the
discovery order sort last via `MAX_SAFE_INTEGER`). -/
theorem claim1_fetchBundleNames_output_invariants (cfg : RuntimeConfig)
    (net : String → FetchOutcome) (appId : String) (out : RunOutcome)
    (h : fetchBundleNamesModel cfg net appId = .ok out) :
    (∀ b ∈ out.result, jsTrim b.name ≠ "") ∧
    (out.result.map (·.id)).Nodup ∧
    (∀ b ∈ out.result, ∃ r ∈ filteredRecords out.metadataResults,
        (filteredRecords out.metadataResults).find? (fun x => x.id == b.id) = some r ∧
        b = sanitizeRecord (jsTrim appId) r) ∧
    (∀ b ∈ out.result, (b.games.map (·.appId)).Nodup ∧
        ∀ g ∈ b.games, g.appId ≠ jsTrim appId) ∧
    List.Pairwise
      (fun a b => orderKey out.bundleIds a.id ≤ orderKey out.bundleIds b.id)
      out.result := by
  have hres := (fetchBundleNamesModel_ok cfg net appId out h).1
  have hperm := List.perm_insertionSort
    (fun a b => orderKey out.bundleIds a.id ≤ orderKey out.bundleIds b.id)
    ((deduplicateBundles (filteredRecords out.metadataResults)).map
      (sanitizeRecord (jsTrim appId)))
  have hresult : ∀ b, b ∈ out.result ↔
      b ∈ (deduplicateBundles (filteredRecords out.metadataResults)).map
        (sanitizeRecord (jsTrim appId)) := by
    intro b
    rw [hres]
    simp only [aggregateBundles]
    exact hperm.mem_iff
  refine ⟨?_, ?_, ?_, ?_, ?_⟩
  · intro b hb
    obtain ⟨r, hr, hbeq⟩ := List.mem_map.mp ((hresult b).mp hb)
    have hrf : r ∈ filteredRecords out.metadataResults :=
      (dedupById_sublist _ _).subset hr
    have hname : jsTrim r.name ≠ "" := filteredRecords_name _ _ hrf
    have : b.name = r.name := by
      rw [← hbeq]
      rfl
    rw [this]
    exact hname
  · have hnd : ((deduplicateBundles (filteredRecords out.metadataResults)).map
        (·.id)).Nodup := dedupById_nodup _ _
    have hmapid : ((deduplicateBundles (filteredRecords out.metadataResults)).map
          (sanitizeRecord (jsTrim appId))).map (·.id)
        = (deduplicateBundles (filteredRecords out.metadataResults)).map (·.id) := by
      rw [List.map_map]
      exact List.map_congr_left fun r _ => rfl
    have hpm := hperm.map (·.id)
    rw [hres]
    simp only [aggregateBundles]
    exact hpm.nodup_iff.mpr (hmapid ▸ hnd)
  · intro b hb
    obtain ⟨r, hr, hbeq⟩ := List.mem_map.mp ((hresult b).mp hb)
    have hfind := dedupById_mem _ _ _ hr
    have hrf : r ∈ filteredRecords out.metadataResults :=
      (dedupById_sublist _ _).subset hr
    refine ⟨r, hrf, ?_, hbeq.symm⟩
    have hid : b.id = r.id := by
      rw [← hbeq]
      rfl
    rw [hid]
    exact hfind.2
  · intro b hb
    obtain ⟨r, hr, hbeq⟩ := List.mem_map.mp ((hresult b).mp hb)
    have hgames : b.games
        = (dedupGamesGo [] r.games).filter fun g => g.appId != jsTrim appId := by
      rw [← hbeq]
      rfl
    constructor
    · rw [hgames]
      refine List.Nodup.sublist ?_ (dedupGamesGo_nodup r.games [])
      exact List.Sublist.map _ (List.filter_sublist _)
    · intro g hg
      rw [hgames, List.mem_filter] at hg
      have := hg.2
      simpa [bne_iff_ne] using this
  · haveI : IsTotal BundleInfo
        (fun a b => orderKey out.bundleIds a.id ≤ orderKey out.bundleIds b.id) :=
      ⟨fun a b => Nat.le_total _ _⟩
    haveI : IsTrans BundleInfo
        (fun a b => orderKey out.bundleIds a.id ≤ orderKey out.bundleIds b.id) :=
      ⟨fun a b c hab hbc => Nat.le_trans hab hbc⟩
    rw [hres]
    simp only [aggregateBundles]
    exact List.sorted_insertionSort _ _

/-- Claim C1 witness: the example run's single surviving record obeys
every output invariant. -/
theorem claim1_witness :
    (∀ b ∈ exOut.result, jsTrim b.name ≠ "") ∧
    (exOut.result.map (·.id)).Nodup ∧
    (∀ b ∈ exOut.result, ∃ r ∈ filteredRecords exOut.metadataResults,
        (filteredRecords exOut.metadataResults).find? (fun x => x.id == b.id) = some r ∧
        b = sanitizeRecord (jsTrim "111") r) ∧
    (∀ b ∈ exOut.result, (b.games.map (·.appId)).Nodup ∧
        ∀ g ∈ b.games, g.appId ≠ jsTrim "111") ∧
    List.Pairwise
      (fun a b => orderKey exOut.bundleIds a.id ≤ orderKey exOut.bundleIds b.id)
      exOut.result :=
  claim1_fetchBundleNames_output_invariants exCfg exNet "111" exOut
    (by with_unfolding_all rfl)

/-- A digit is not JS whitespace. -/
theorem isJsWs_digit {c : Char} (h : c.isDigit = true) : isJsWs c = false := by
  have hne : ∀ w : Char, w.isDigit = false → c ≠ w := by
    intro w hw he
    rw [he, hw] at h
    cases h
  simp only [isJsWs, Bool.or_eq_false_iff, beq_eq_false_iff_ne, ne_eq]
  and_intros <;> exact hne _ (by decide)

/-- Trimming a digits-only string is the identity. -/
theorem jsTrimL_all_digits : ∀ {l : List Char}, (∀ c ∈ l, c.isDigit = true) → jsTrimL l = l := by
  intro l h
  have h1 : trimLeftJs l.reverse = l.reverse := by
    cases hl : l.reverse with
    | nil => rfl
    | cons c rest =>
      have hc : c ∈ l := by
        rw [← List.mem_reverse, hl]
        exact List.mem_cons_self _ _
      unfold trimLeftJs
      rw [isJsWs_digit (h c hc)]
      simp
  unfold jsTrimL
  rw [h1, List.reverse_reverse]
  cases hl : l with
  | nil => rfl
  | cons c rest =>
    have hc : c ∈ l := by
      rw [hl]
      exact List.mem_cons_self _ _
    unfold trimLeftJs
    rw [isJsWs_digit (h c hc)]
    simp

/-- The decimal-literal grammar on a digits-only string consumes it
whole with its digit value. -/
theorem jsDecLit_digits {ds : List Char} (h1 : ds ≠ []) (h2 : ∀ c ∈ ds, c.isDigit = true) :
    jsDecLit ds = some ((digitsVal ds : Rat), []) := by
  have ht : ds.takeWhile Char.isDigit = ds := List.takeWhile_eq_self_iff.mpr h2
  unfold jsDecLit
  rw [ht]
  simp only [List.drop_length]
  cases ds with
  | nil => exact absurd rfl h1
  | cons c rest => rfl

/-- The overflow bound is positive. -/
theorem FLOAT_OVERFLOW_BOUND_pos : 0 < FLOAT_OVERFLOW_BOUND := by
  unfold FLOAT_OVERFLOW_BOUND
  positivity

/-- No overflow below 2^1024 in magnitude. -/
theorem jsOverflow_fin {q : Rat} (h0 : 0 ≤ q) (h : q < FLOAT_OVERFLOW_BOUND) :
    jsOverflow q = .fin q := by
  unfold jsOverflow
  rw [if_neg (not_le.mpr h), if_neg]
  exact not_le.mpr (lt_of_lt_of_le (neg_neg_of_pos FLOAT_OVERFLOW_BOUND_pos) h0)

/-- The computable rational floor agrees with the floor of the
`FloorRing` instance. -/
theorem ratFloor_eq (q : Rat) : q.floor = ⌊q⌋ := by
  rw [Rat.floor_def', Rat.floor_def]

/-- `jsRound` is Mathlib's `round` (round half up). -/
theorem jsRound_eq (q : Rat) : jsRound q = round q := by
  unfold jsRound
  rw [round_eq, ratFloor_eq]

/-- A digit-headed list carries no sign. -/
theorem jsSignSplit_none {c : Char} {rest : List Char} (h1 : c ≠ '+') (h2 : c ≠ '-') :
    jsSignSplit (c :: rest) = none := by
  unfold jsSignSplit
  split
  · rename_i t heq
    injection heq with hh _
    exact absurd hh h1
  · rename_i t heq
    injection heq with hh _
    exact absurd hh h2
  · rfl

/-- The decimal tail of a digits-only list is its digit value. -/
theorem jsDecTail_digits {ds : List Char} (h1 : ds ≠ [])
    (h2 : ∀ c ∈ ds, c.isDigit = true) (h3 : (digitsVal ds : Rat) < FLOAT_OVERFLOW_BOUND) :
    jsDecTail ds = .fin ((digitsVal ds : Rat)) := by
  unfold jsDecTail
  rw [jsDecLit_digits h1 h2]
  exact jsOverflow_fin (Nat.cast_nonneg _) h3

/-- The unsigned body of a digits-only list is its digit value. -/
theorem jsUnsignedTail_digits {c : Char} {rest : List Char}
    (h2 : ∀ x ∈ c :: rest, x.isDigit = true)
    (h3 : (digitsVal (c :: rest) : Rat) < FLOAT_OVERFLOW_BOUND) :
    jsUnsignedTail (c :: rest) = .fin ((digitsVal (c :: rest) : Rat)) := by
  have hInf : ¬(c :: rest = "Infinity".data) := by
    intro he
    have hcI : c = 'I' := by
      have := congrArg (fun l => l.headD ' ') he
      simpa using this
    have h0 := h2 c (List.mem_cons_self _ _)
    rw [hcI] at h0
    exact absurd h0 (by decide)
  unfold jsUnsignedTail
  rw [if_neg hInf]
  split
  · rename_i x t heq
    have hx : x.isDigit = true := by
      refine h2 x ?_
      rw [heq]
      exact List.mem_cons_of_mem _ (List.mem_cons_self _ _)
    have hlit : ∀ w : Char, w.isDigit = false → (x == w) = false := by
      intro w hw
      refine beq_eq_false_iff_ne.mpr fun e => ?_
      rw [e, hw] at hx
      cases hx
    rw [hlit 'x' (by decide), hlit 'X' (by decide), hlit 'o' (by decide),
      hlit 'O' (by decide), hlit 'b' (by decide), hlit 'B' (by decide)]
    simp only [Bool.or_self, Bool.false_or, if_false]
    rw [← heq]
    exact jsDecTail_digits (List.cons_ne_nil c rest) h2 h3
  · exact jsDecTail_digits (List.cons_ne_nil c rest) h2 h3

/-- `Number()` of a non-empty digits-only string below the overflow
bound is its exact digit value. -/
theorem jsNumber_digits {ds : List Char} (h1 : ds ≠ [])
    (h2 : ∀ c ∈ ds, c.isDigit = true) (hb : digitsVal ds < 2 ^ 1024) :
    jsNumber (strOf ds) = .fin ((digitsVal ds : Rat)) := by
  have h3 : (digitsVal ds : Rat) < FLOAT_OVERFLOW_BOUND := by
    unfold FLOAT_OVERFLOW_BOUND
    exact_mod_cast hb
  obtain ⟨c, rest, rfl⟩ := List.exists_cons_of_ne_nil h1
  have hc : c.isDigit = true := h2 c (List.mem_cons_self _ _)
  have hnp : c ≠ '+' := fun e => by rw [e] at hc; exact absurd hc (by decide)
  have hnm : c ≠ '-' := fun e => by rw [e] at hc; exact absurd hc (by decide)
  have htrim : jsTrimL (strOf (c :: rest)).data = c :: rest := jsTrimL_all_digits h2
  unfold jsNumber
  rw [htrim]
  unfold jsNumberL
  rw [if_neg (List.cons_ne_nil c rest), jsSignSplit_none hnp hnm]
  exact jsUnsignedTail_digits h2 h3

/-- Claim C5: a raw price string with a decimal separator is parsed as
major units and rounded to 2 decimals; a digits-only string is divided
by 100 (idealised: its exact value over 100, which the rounding leaves
unchanged); concretely `"1999"` yields 19.99, `"19.99"` yields 19.99,
and `"1999.5"` yields 1999.5. -/
theorem claim5_parsePrice_normalization :
    (∀ s : String, jsTrimL s.data ≠ [] →
      (∀ c ∈ jsTrimL s.data, c.isDigit = true) →
      digitsVal (jsTrimL s.data) < 2 ^ 1024 →
      parsePrice s = some ((digitsVal (jsTrimL s.data) : Rat) / 100)) ∧
    (∀ s : String, (jsTrimL s.data).contains '.' = true →
      ∀ q : Rat,
        (jsTrimL s.data).filter (fun c => c.isDigit || c == '.') ≠ [] →
        jsNumber (strOf ((jsTrimL s.data).filter (fun c => c.isDigit || c == '.'))) = .fin q →
        parsePrice s = some (((jsRound (q * 100) : Int) : Rat) / 100)) ∧
    parsePrice "1999" = some ((1999 : Rat) / 100) ∧
    parsePrice "19.99" = some ((1999 : Rat) / 100) ∧
    parsePrice "1999.5" = some ((3999 : Rat) / 2) := by
  refine ⟨?_, ?_, by with_unfolding_all rfl, by with_unfolding_all rfl,
    by with_unfolding_all rfl⟩
  · intro s hne hdig hbound
    have hnodot : (jsTrimL s.data).contains '.' = false := by
      rw [Bool.eq_false_iff]
      intro hmem
      have hd := hdig '.' (containsP.mp hmem)
      exact absurd hd (by decide)
    have hfilter : (jsTrimL s.data).filter (fun c => c.isDigit || c == '.') = jsTrimL s.data := by
      refine List.filter_eq_self.mpr fun c hc => ?_
      rw [hdig c hc]
      rfl
    simp only [parsePrice]
    rw [if_neg hne, hnodot, hfilter, if_neg hne, jsNumber_digits hne hdig hbound]
    simp only [if_false, Bool.false_eq_true]
    congr 1
    have h100 : ((digitsVal (jsTrimL s.data) : Rat) / 100) * 100 = (digitsVal (jsTrimL s.data) : Rat) := by
      field_simp
    rw [h100, jsRound_eq, round_natCast]
    push_cast
    ring
  · intro s hdot q hsane hnum
    simp only [parsePrice]
    have hne : jsTrimL s.data ≠ [] := by
      intro he
      rw [he] at hdot
      cases hdot
    rw [if_neg hne, hdot, if_neg hsane, hnum]
    simp

/-- Claim C5 witness: the first branch applied at `"1999"` and the
second at `"19.99"`. -/
theorem claim5_witness :
    parsePrice "1999" = some ((digitsVal (jsTrimL "1999".data) : Rat) / 100) ∧
    parsePrice "19.99" = some (((jsRound (((1999 : Rat) / 100) * 100) : Int) : Rat) / 100) := by
  constructor
  · exact claim5_parsePrice_normalization.1 "1999" (by decide) (by decide) (by decide)
  · exact claim5_parsePrice_normalization.2.1 "19.99" (by decide) ((1999 : Rat) / 100)
      (by decide) (by with_unfolding_all rfl)

/-- Claim C10: a subject id whose trimmed value is non-blank but does
not convert to a finite number makes `extractBundlesFromHtml` return
the empty list for every HTML input, silently. -/
theorem claim10_nonnumeric_appid (appId : String)
    (h1 : jsTrim appId ≠ "") (h2 : ∀ q, jsNumber appId ≠ .fin q) :
    ∀ html : String, extractBundlesFromHtml html appId = [] := by
  intro html
  unfold extractBundlesFromHtml
  cases h : jsNumber appId with
  | fin q => exact absurd h (h2 q)
  | nan => rfl
  | inf b => rfl

/-- Claim C10 witness at the non-numeric subject id `"abc"`. -/
theorem claim10_witness :
    jsTrim "abc" ≠ "" ∧ (∀ q, jsNumber "abc" ≠ .fin q) ∧
      extractBundlesFromHtml "<a x>" "abc" = [] := by
  have h2 : ∀ q, jsNumber "abc" ≠ JsNum.fin q := by
    intro q h
    rw [show jsNumber "abc" = JsNum.nan from rfl] at h
    cases h
  exact ⟨by decide, h2, claim10_nonnumeric_appid "abc" (by decide) h2 "<a x>"⟩

end BM
